import Mathlib

/-!
# GPS routes and tracks: merge-on-ingestion and derived metrics

A shallow embedding of `src/src/route.cpp` and `src/src/track.cpp`.

Modelling conventions.

* `metres` and `degrees` are C++ `double`; they are embedded as rationals, so
  infinities and NaN are outside the model. In the height-gain functions every
  subtraction and addition is followed by `roundDouble`, the IEEE 754 binary64
  rounding (to nearest, ties to even); the other metrics are computed exactly.
* `seconds` is an unsigned 64-bit integer (`Track::stringToTime` returns the result
  of `stoull`); it is embedded as a natural number below `secondsModulus`, and
  every addition and subtraction on it is reduced modulo `secondsModulus`.
* `std::vector` is embedded as `List`; `push_back x` is `l ++ [x]`.
* A failing `assert` or a thrown exception is the result `none`.
* `Position::distanceBetween` lives in the geometry library, which is not part of
  the two source files; every definition that needs it takes it as the parameter
  `dist`.
* The XML parser is not part of the two source files either; a raw way-point is the
  record of what the parser calls of `getPos`, `getName` and the track loop
  extract from one `rtept` / `trkpt` element.
-/

namespace GPS

/-! ## Data model -/

abbrev metres := ℚ
abbrev degrees := ℚ
abbrev seconds := ℕ

/-- Number of values of the unsigned 64-bit type `seconds`. -/
abbrev secondsModulus : ℕ := 18446744073709551616

/-- Unsigned addition `a + b` on `seconds`. -/
def addSeconds (a b : seconds) : seconds := (a + b) % secondsModulus

/-- Unsigned subtraction `a - b` on `seconds` (wraps around below zero). -/
def subSeconds (a b : seconds) : seconds :=
  (a % secondsModulus + (secondsModulus - b % secondsModulus)) % secondsModulus

/-- A geodetic point; `Position(lat, lon)` without elevation stores elevation 0. -/
structure Position where
  latitude : degrees
  longitude : degrees
  elevation : metres
deriving DecidableEq, Inhabited

/-- What the parser extracts from one way-point element: the `lat` and `lon`
attributes, the optional `ele` and `name` sub-elements, and (track points only)
the content of the `time` sub-element after `stringToTime`. -/
structure RawPoint where
  lat : degrees
  lon : degrees
  ele : Option metres
  name : Option String
  time : seconds
deriving DecidableEq, Inhabited

/-- The data members of `Route` that the modelled functions read or write. -/
structure Route where
  positions : List Position
  positionNames : List String
  granularity : metres
deriving DecidableEq

/-- The data members of `Track`: those of `Route` plus the two time vectors. -/
structure Track where
  positions : List Position
  positionNames : List String
  arrived : List seconds
  departed : List seconds
  granularity : metres
deriving DecidableEq

/-! ## Track time metrics (`track.cpp`, lines 17-37) -/

/-- `Track::totalTime`: asserts `departed` is non-empty and returns `departed.back()`. -/
def Track.totalTime (t : Track) : Option seconds :=
  if t.departed.isEmpty then none else t.departed.getLast?

/-- Body of the loop of `Track::restingTime` for index `i`. -/
def Track.restingStep (t : Track) (total : seconds) (i : ℕ) : seconds :=
  addSeconds total (subSeconds (t.departed.getD i 0) (t.arrived.getD i 0))

/-- `Track::restingTime`: asserts the two vectors have the same size and sums
`departed[i] - arrived[i]` over all indices. -/
def Track.restingTime (t : Track) : Option seconds :=
  if t.arrived.length = t.departed.length then
    some ((List.range t.arrived.length).foldl t.restingStep 0)
  else none

/-- `Track::travellingTime`: `totalTime() - restingTime()`. -/
def Track.travellingTime (t : Track) : Option seconds :=
  match t.totalTime, t.restingTime with
  | some tt, some rt => some (subSeconds tt rt)
  | _, _ => none

/-! ## Same location and the route merge (`route.cpp`, lines 297-331, 385-388, 404-407) -/

/-- `Route::areSameLocation`: `distanceBetween(p1, p2) < granularity`. -/
def areSameLocation (dist : Position → Position → metres) (granularity : metres)
    (p1 p2 : Position) : Bool :=
  decide (dist p1 p2 < granularity)

/-- `Route::getPos`: `Position(lat, lon, ele)` when the `ele` element exists,
`Position(lat, lon)` otherwise. -/
def getPos (pos : RawPoint) : Position :=
  match pos.ele with
  | some ele => { latitude := pos.lat, longitude := pos.lon, elevation := ele }
  | none => { latitude := pos.lat, longitude := pos.lon, elevation := 0 }

/-- `Route::getName`: the content of the `name` element, or the empty string. -/
def getName (pos : RawPoint) : String :=
  match pos.name with
  | some n => n
  | none => ""

/-- `Route::pushPosition`: push the new position, then pop it again when the
vector has more than one entry and the new back is the same location as the entry
before it; otherwise push the name as well. -/
def Route.pushPosition (dist : Position → Position → metres) (r : Route)
    (pos : RawPoint) : Route :=
  let pushed := r.positions ++ [getPos pos]
  if 1 < pushed.length ∧
      areSameLocation dist r.granularity (pushed.getLastD default)
        (pushed.getD (pushed.length - 2) default) = true then
    { r with positions := pushed.dropLast }
  else
    { r with positions := pushed, positionNames := r.positionNames ++ [getName pos] }

/-- The route merge: `pushPosition` on every way-point of a stream in document
order, starting from empty vectors. This is the sequence of calls the `rtept`
loop of the `Route` constructor is written to make; the loop exactly as written
is `Route.constructLoop`. -/
def Route.ingest (dist : Position → Position → metres) (granularity : metres)
    (rtepts : List RawPoint) : Route :=
  rtepts.foldl (Route.pushPosition dist)
    { positions := [], positionNames := [], granularity := granularity }

/-- The way-points of a document written from an ingested route: one `rtept` per
retained entry, carrying its coordinates, its elevation and its stored name. -/
def Route.toRaw (r : Route) : List RawPoint :=
  List.zipWith
    (fun p n =>
      { lat := p.latitude, lon := p.longitude, ele := some p.elevation, name := some n,
        time := 0 })
    r.positions r.positionNames

/-! ## The track way-point loop (`track.cpp`, lines 185-279) -/

/-- The members of a `Track` under construction together with the locals
`prevPos` and `startTime` of the constructor. -/
structure TrackLoop where
  track : Track
  prevPos : Position
  startTime : seconds
deriving DecidableEq

/-- The assignment `v.back() = x`. -/
def setBack {α : Type} (v : List α) (x : α) : List α :=
  v.set (v.length - 1) x

/-- The first `trkpt` (lines 185-229): one entry in each vector, both times 0,
`startTime` is the point's own timestamp. -/
def Track.firstPoint (granularity : metres) (pt : RawPoint) : TrackLoop :=
  let startPos : Position :=
    match pt.ele with
    | some ele => { latitude := pt.lat, longitude := pt.lon, elevation := ele }
    | none => { latitude := pt.lat, longitude := pt.lon, elevation := 0 }
  let name : String :=
    match pt.name with
    | some n => n
    | none => ""
  { track :=
      { positions := [startPos], positionNames := [name], arrived := [0],
        departed := [0], granularity := granularity },
    prevPos := startPos,
    startTime := pt.time }

/-- One iteration of the `while (elementExists(source, "trkpt"))` loop
(lines 231-279). -/
def Track.loopStep (dist : Position → Position → metres) (s : TrackLoop)
    (pt : RawPoint) : TrackLoop :=
  let nextPos : Position :=
    match pt.ele with
    | some ele => { latitude := pt.lat, longitude := pt.lon, elevation := ele }
    | none => { latitude := pt.lat, longitude := pt.lon, elevation := 0 }
  let currentTime := pt.time
  if areSameLocation dist s.track.granularity nextPos s.prevPos = true then
    { s with
      track := { s.track with
        departed := setBack s.track.departed (subSeconds currentTime s.startTime) } }
  else
    let name : String :=
      match pt.name with
      | some n => n
      | none => ""
    let timeElapsed := subSeconds currentTime s.startTime
    { s with
      track := { s.track with
        positions := s.track.positions ++ [nextPos],
        positionNames := s.track.positionNames ++ [name],
        arrived := s.track.arrived ++ [timeElapsed],
        departed := s.track.departed ++ [timeElapsed] },
      prevPos := nextPos }

/-- The way-point part of the `Track` constructor on the stream of `trkpt`
elements `first :: rest`. -/
def Track.ingest (dist : Position → Position → metres) (granularity : metres)
    (first : RawPoint) (rest : List RawPoint) : Track :=
  (rest.foldl (Track.loopStep dist) (Track.firstPoint granularity first)).track

/-- The ordering of the stored times of a track: `arrived[i] <= departed[i]` for
every index `i`, and `departed[i] <= arrived[i+1]` for every index with a
successor. -/
def TimesOrdered (arrived departed : List seconds) : Prop :=
  (∀ (i : ℕ) (a d : seconds), arrived[i]? = some a → departed[i]? = some d → a ≤ d) ∧
  (∀ (i : ℕ) (d a : seconds), departed[i]? = some d → arrived[i + 1]? = some a → d ≤ a)

/-! ## Rounding of `double` arithmetic -/

/-- The integer nearest to `y`, the even one of the two when `y` lies half-way. -/
def roundTiesEven (y : ℚ) : ℤ :=
  if y - ⌊y⌋ < 1 / 2 then ⌊y⌋
  else if 1 / 2 < y - ⌊y⌋ then ⌊y⌋ + 1
  else if ⌊y⌋ % 2 = 0 then ⌊y⌋ else ⌊y⌋ + 1

/-- The binary exponent `e` of a `double` near `x`: `2^e <= |x| < 2^(e+1)`, and
the least normal exponent -1022 for smaller (subnormal) magnitudes. -/
def doubleExponent (x : ℚ) : ℤ := max (Int.log 2 |x|) (-1022)

/-- The `double` that an arithmetic operation with exact result `x` returns: `x`
rounded to the nearest multiple of `2^(e-52)` (53 significant bits), ties to
even. Overflow to an infinity (`|x| >= 2^1024`) is outside the model. -/
def roundDouble (x : ℚ) : ℚ :=
  (roundTiesEven (x / 2 ^ (doubleExponent x - 52)) : ℚ) * 2 ^ (doubleExponent x - 52)

/-! ## Height gain (`route.cpp`, lines 45-64) -/

/-- Body of the loop of `Route::totalHeightGain` for index `i`: the subtraction
and the addition are `double` operations. -/
def Route.heightGainStep (r : Route) (total : metres) (i : ℕ) : metres :=
  let deltaV := roundDouble ((r.positions.getD i default).elevation
    - (r.positions.getD (i - 1) default).elevation)
  if deltaV > 0 then roundDouble (total + deltaV) else total

/-- `Route::totalHeightGain`: asserts the route is non-empty and adds up the
positive elevation differences for `i = 1 .. numPositions() - 1`. -/
def Route.totalHeightGain (r : Route) : Option metres :=
  if r.positions.isEmpty then none
  else some ((List.range' 1 (r.positions.length - 1)).foldl r.heightGainStep 0)

/-- `Route::netHeightGain`: asserts the route is non-empty and returns
`max(back.elevation - front.elevation, 0)`, the subtraction being a `double`
operation. -/
def Route.netHeightGain (r : Route) : Option metres :=
  if r.positions.isEmpty then none
  else
    let deltaV := roundDouble ((r.positions.getLastD default).elevation
      - (r.positions.headD default).elevation)
    some (max deltaV 0)

/-! ## Name and position lookup (`route.cpp`, lines 204-231) -/

/-- `Route::findPosition`: `std::find` on the names; throws when the name is not
there, otherwise indexes `positions` at the same offset. -/
def Route.findPosition (r : Route) (soughtName : String) : Option Position :=
  let nameIt := r.positionNames.indexOf soughtName
  if nameIt = r.positionNames.length then none
  else r.positions.get? nameIt

/-- `Route::findNameOf`: `std::find_if` for the first position that is the same
location as the argument; throws when there is none, otherwise indexes
`positionNames` at the same offset. -/
def Route.findNameOf (dist : Position → Position → metres) (r : Route)
    (soughtPos : Position) : Option String :=
  let posIt := r.positions.findIdx (fun pos => areSameLocation dist r.granularity pos soughtPos)
  if posIt = r.positions.length then none
  else r.positionNames.get? posIt

/-! ## Visit counts (`route.cpp`, lines 233-246) -/

/-- Number of values of the 32-bit type `unsigned int`. -/
abbrev unsignedModulus : ℕ := 4294967296

/-- `Route::timesVisited(const std::string &)`: look the name up with
`findPosition`; when that throws `std::out_of_range` the exception is swallowed
and the count stays 0, otherwise count the positions that are the same location
as the one found. -/
def Route.timesVisited (dist : Position → Position → metres) (r : Route)
    (soughtName : String) : ℕ :=
  match r.findPosition soughtName with
  | none => 0
  | some position =>
    r.positions.foldl
      (fun timesVisited i =>
        if areSameLocation dist r.granularity i position = true
        then (timesVisited + 1) % unsignedModulus else timesVisited)
      0

/-! ## Lengths (`route.cpp`, lines 26-43 and 333-343) -/

/-- Body of the loop of `Route::setLength` for index `i`; `pathLength deltaH deltaV`
stands for `sqrt(pow(deltaH, 2) + pow(deltaV, 2))`, which is not a rational
function and is therefore a parameter. -/
def Route.lengthStep (dist : Position → Position → metres)
    (pathLength : metres → metres → metres) (r : Route) (routeLength : metres) (i : ℕ) :
    metres :=
  let deltaH := dist (r.positions.getD (i - 1) default) (r.positions.getD i default)
  let deltaV := (r.positions.getD (i - 1) default).elevation
    - (r.positions.getD i default).elevation
  routeLength + pathLength deltaH deltaV

/-- `Route::setLength`: the value it stores in `routeLength`. -/
def Route.setLength (dist : Position → Position → metres)
    (pathLength : metres → metres → metres) (r : Route) : metres :=
  (List.range' 1 (r.positions.length - 1)).foldl (r.lengthStep dist pathLength) 0

/-- `Route::totalLength`: returns the member `routeLength`, which is assigned only
by `setLength` at the end of the constructor. -/
def Route.totalLength (dist : Position → Position → metres)
    (pathLength : metres → metres → metres) (r : Route) : metres :=
  r.setLength dist pathLength

/-- `Route::netLength`: 0 when the first and the last position are the same
location, their distance otherwise. The function indexes `positions[0]` without
a check; on an empty route there is no defined result. -/
def Route.netLength (dist : Position → Position → metres) (r : Route) : Option metres :=
  match r.positions.head?, r.positions.getLast? with
  | some firstPosition, some lastPosition =>
    if areSameLocation dist r.granularity firstPosition lastPosition = true then some 0
    else some (dist firstPosition lastPosition)
  | _, _ => none

/-! ## Gradients (`route.cpp`, lines 148-197) -/

/-- The gradient between positions `i - 1` and `i`; `gradient deltaV deltaH` stands
for `radToDeg(std::atan(deltaV / deltaH))`. -/
def Route.gradientAt (dist : Position → Position → metres)
    (gradient : metres → metres → degrees) (r : Route) (i : ℕ) : degrees :=
  let deltaH := dist (r.positions.getD i default) (r.positions.getD (i - 1) default)
  let deltaV := (r.positions.getD i default).elevation
    - (r.positions.getD (i - 1) default).elevation
  gradient deltaV deltaH

/-- `Route::maxGradient`; `halfRotation` is a constant of the geometry header. -/
def Route.maxGradient (dist : Position → Position → metres)
    (gradient : metres → metres → degrees) (halfRotation : degrees) (r : Route) :
    Option degrees :=
  if r.positions.isEmpty then none
  else if r.positions.length = 1 then some 0
  else some ((List.range' 1 (r.positions.length - 1)).foldl
    (fun maxGrad i => max maxGrad (r.gradientAt dist gradient i)) (-halfRotation / 2))

/-- `Route::minGradient`. -/
def Route.minGradient (dist : Position → Position → metres)
    (gradient : metres → metres → degrees) (halfRotation : degrees) (r : Route) :
    Option degrees :=
  if r.positions.isEmpty then none
  else if r.positions.length = 1 then some 0
  else some ((List.range' 1 (r.positions.length - 1)).foldl
    (fun minGrad i => min minGrad (r.gradientAt dist gradient i)) (halfRotation / 2))

/-- `Route::steepestGradient`. -/
def Route.steepestGradient (dist : Position → Position → metres)
    (gradient : metres → metres → degrees) (halfRotation : degrees) (r : Route) :
    Option degrees :=
  if r.positions.isEmpty then none
  else if r.positions.length = 1 then some 0
  else some ((List.range' 1 (r.positions.length - 1)).foldl
    (fun maxGrad i => max maxGrad |r.gradientAt dist gradient i|) (-halfRotation / 2))

/-! ## Minimum latitude (`route.cpp`, lines 66-85) -/

/-- The local `epsilon` of `Route::minLatitude`. -/
def latitudeEpsilon : degrees := 1 / 10000

/-- Body of the loop of `Route::minLatitude` for index `i`. -/
def Route.minLatitudeStep (r : Route) (lowestLatitude : degrees) (i : ℕ) : degrees :=
  if (r.positions.getD i default).latitude - lowestLatitude < latitudeEpsilon
  then (r.positions.getD i default).latitude else lowestLatitude

/-- `Route::minLatitude`: throws on an empty route, otherwise runs the loop over
all indices starting from the latitude of `positions[0]`. -/
def Route.minLatitude (r : Route) : Option degrees :=
  if r.positions.isEmpty then none
  else some ((List.range r.positions.length).foldl r.minLatitudeStep
    (r.positions.getD 0 default).latitude)

/-! ## The `Route` constructor after the file has been read (`route.cpp`, lines 263-295, 375-396) -/

/-- What the parser reports about a route source text: whether the `gpx` element
exists, whether the `rte` element exists in its content, and the `rtept` elements
(each with `lat` and `lon` attributes) of the data that `getToData` returns. -/
structure RouteDocument where
  gpx : Bool
  rte : Bool
  rtepts : List RawPoint
deriving DecidableEq

/-- `Route::latAndLon(std::string data, std::string type)` for `type = "rtept"`:
throws when no such element exists, otherwise returns the first one. The
parameter `data` is passed by value, so `getAndEraseElement` erases the element
from the copy only and the caller's string is left as it was. -/
def Route.latAndLon (data : List RawPoint) : Except String RawPoint :=
  match data with
  | [] => .error "No 'rtept' element."
  | newPos :: _ => .ok newPos

/-- The loop `while (elementExists(elemData, "rtept"))` of the constructor, with
`fuel` bounding the number of condition checks: `none` when the loop is still
running after `fuel` checks. `elemData` is the same in every iteration. -/
def Route.constructLoop (dist : Position → Position → metres) :
    ℕ → List RawPoint → Route → Option (Except String Route)
  | 0, _, _ => none
  | fuel + 1, elemData, r =>
    if elemData.isEmpty then some (.ok r)
    else
      match Route.latAndLon elemData with
      | .error e => some (.error e)
      | .ok recentPos => Route.constructLoop dist fuel elemData (r.pushPosition dist recentPos)

/-- The `Route` constructor on a source text (`isFileName = false`): the container
checks of `getToData`, then the way-point loop. -/
def Route.construct (dist : Position → Position → metres) (fuel : ℕ)
    (granularity : metres) (doc : RouteDocument) : Option (Except String Route) :=
  if !doc.gpx then some (.error "No 'gpx' element.")
  else if !doc.rte then some (.error "No 'rte' element.")
  else Route.constructLoop dist fuel doc.rtepts
    { positions := [], positionNames := [], granularity := granularity }

/-- `Route::numPositions`. -/
def Route.numPositions (r : Route) : ℕ := r.positions.length % unsignedModulus

/-! ## Speeds (`track.cpp`, lines 39-61) -/

/-- The quotient `distance / time` of a `double` by a `seconds` value. It is a
number only for a non-zero divisor (IEEE arithmetic gives an infinity or NaN for
a zero divisor), so a zero divisor is `none`. -/
def divideByTime (distance : metres) (time : seconds) : Option metres :=
  if time = 0 then none else some (distance / (time : ℚ))

/-- The divisor `arrived[i] - departed[i-1]` of iteration `i` of `Track::maxSpeed`. -/
def Track.elapsedBefore (t : Track) (i : ℕ) : seconds :=
  subSeconds (t.arrived.getD i 0) (t.departed.getD (i - 1) 0)

/-- Body of the loop of `Track::maxSpeed` for index `i`. -/
def Track.maxSpeedStep (dist : Position → Position → metres)
    (pathLength : metres → metres → metres) (t : Track) (ms : Option metres) (i : ℕ) :
    Option metres :=
  let deltaH := dist (t.positions.getD i default) (t.positions.getD (i - 1) default)
  let deltaV := (t.positions.getD i default).elevation
    - (t.positions.getD (i - 1) default).elevation
  let distance := pathLength deltaH deltaV
  let time := t.elapsedBefore i
  match ms, divideByTime distance time with
  | some ms, some q => some (max ms q)
  | _, _ => none

/-- `Track::maxSpeed`: `none` when the assertion on the sizes fails or when a
division has a zero divisor. -/
def Track.maxSpeed (dist : Position → Position → metres)
    (pathLength : metres → metres → metres) (t : Track) : Option metres :=
  if t.positions.length = t.departed.length ∧ t.positions.length = t.arrived.length then
    if t.positions.length = 1 then some 0
    else (List.range' 1 (t.positions.length - 1)).foldl (t.maxSpeedStep dist pathLength)
      (some 0)
  else none

/-- `Track::averageSpeed`; `routeLength` is the member that `totalLength()` returns.
`none` only when an assertion of `totalTime` or `restingTime` fails. -/
def Track.averageSpeed (t : Track) (routeLength : metres) (includeRests : Bool) :
    Option metres :=
  match (if includeRests then t.totalTime else t.travellingTime) with
  | none => none
  | some time => if time = 0 then some 0 else some (routeLength / (time : ℚ))

/-! ## The start of the `Track` constructor (`track.cpp`, lines 93-97, 125-160) -/

/-- The exceptions the constructors throw. -/
inductive ConstructionError where
  | invalidArgument (what : String)
  | domainError (what : String)
deriving DecidableEq

/-- Lines 137-153: `fileContent` is filled from the file when `isFileName` is
set and is left default-constructed (empty) otherwise; `readFile` gives the text
the read loop collects, or `none` when the stream is not good. -/
def Track.readFileContent (readFile : String → Option String) (source : String)
    (isFileName : Bool) : Except ConstructionError String :=
  if isFileName then
    match readFile source with
    | none => .error (.invalidArgument ("Error opening source file '" ++ source ++ "'."))
    | some text => .ok text
  else .ok ""

/-- `Track::chkElementExists`; `elementExists` is the parser's function. -/
def Track.chkElementExists (elementExists : String → String → Bool)
    (elemName fileContent : String) : Except ConstructionError Unit :=
  if !elementExists fileContent elemName
  then .error (.domainError ("no '" ++ elemName ++ "' element."))
  else .ok ()

/-- The constructor up to and including the check for the `gpx` element
(line 159); the result is `fileContent` as later lines go on to use it. -/
def Track.openDocument (elementExists : String → String → Bool)
    (readFile : String → Option String) (source : String) (isFileName : Bool) :
    Except ConstructionError String :=
  match Track.readFileContent readFile source isFileName with
  | .error e => .error e
  | .ok fileContent =>
    match Track.chkElementExists elementExists "gpx" fileContent with
    | .error e => .error e
    | .ok _ => .ok fileContent

/-- A stand-in for the parser's `elementExists` in the worked examples: it
reports an element in every non-empty text and none in the empty text. -/
def nonEmptyText (text _tag : String) : Bool := text.length != 0

/-! ## A concrete distance for worked examples -/

/-- A stand-in for the great-circle distance used in the worked examples: the
sum of the absolute latitude and longitude differences, at 111195 metres per
degree. It is symmetric, non-negative, and zero exactly on equal coordinates. -/
def gridDistance (p1 p2 : Position) : metres :=
  (|p1.latitude - p2.latitude| + |p1.longitude - p2.longitude|) * 111195

/-- A raw way-point with a name and no elevation or (meaningful) time. -/
def namedPoint (lat lon : degrees) (name : String) : RawPoint :=
  { lat := lat, lon := lon, ele := none, name := some name, time := 0 }

/-- A raw track point without name or elevation. -/
def timedPoint (lat lon : degrees) (time : seconds) : RawPoint :=
  { lat := lat, lon := lon, ele := none, name := none, time := time }

end GPS

namespace GPS

/-! ## Arithmetic on `seconds` -/

theorem addSeconds_lt (a b : seconds) : addSeconds a b < secondsModulus :=
  Nat.mod_lt _ (by decide)

theorem subSeconds_lt (a b : seconds) : subSeconds a b < secondsModulus :=
  Nat.mod_lt _ (by decide)

theorem addSeconds_subSeconds (a b : ℕ) (ha : a < secondsModulus)
    (hb : b < secondsModulus) : addSeconds b (subSeconds a b) = a := by
  simp only [addSeconds, subSeconds, secondsModulus] at *
  show @Eq ℕ _ _
  omega

theorem subSeconds_of_le (a b : ℕ) (hba : b ≤ a) (ha : a < secondsModulus) :
    subSeconds a b = a - b := by
  simp only [subSeconds, secondsModulus] at *
  show @Eq ℕ _ _
  omega

theorem small_lt_secondsModulus (a : ℕ) (h : a ≤ 1000) : a < secondsModulus := by
  simp only [secondsModulus]
  omega

theorem restingFold_lt (t : Track) (l : List ℕ) (acc : seconds)
    (hacc : acc < secondsModulus) :
    l.foldl t.restingStep acc < secondsModulus := by
  induction l generalizing acc with
  | nil => simpa using hacc
  | cons i l ih =>
    simp only [List.foldl_cons]
    exact ih _ (addSeconds_lt _ _)

end GPS

namespace GPS

/-! ## C1: total time is resting time plus travelling time -/

/-- C1. For every track whose `arrived` and `departed` vectors have the same non-zero
length (entries being values of the unsigned 64-bit type), `totalTime`,
`restingTime` and `travellingTime` all return, and `totalTime` equals
`restingTime + travellingTime` in the arithmetic of `seconds`. -/
theorem totalTime_eq_resting_add_travelling (t : Track)
    (hlen : t.arrived.length = t.departed.length) (hne : t.departed ≠ [])
    (hdep : ∀ d ∈ t.departed, d < secondsModulus) :
    ∃ total resting travelling : seconds,
      t.totalTime = some total ∧ t.restingTime = some resting ∧
      t.travellingTime = some travelling ∧
      total = addSeconds resting travelling := by
  obtain ⟨d, hd⟩ : ∃ d, t.departed.getLast? = some d := by
    cases h : t.departed.getLast? with
    | none => exact absurd (List.getLast?_eq_none_iff.mp h) hne
    | some d => exact ⟨d, rfl⟩
  have hdlt : d < secondsModulus := hdep d (List.mem_of_getLast?_eq_some hd)
  have htot : t.totalTime = some d := by
    simp [Track.totalTime, hne, hd]
  have hrest : t.restingTime
      = some ((List.range t.arrived.length).foldl t.restingStep 0) := by
    simp [Track.restingTime, hlen]
  refine ⟨d, _, subSeconds d ((List.range t.arrived.length).foldl t.restingStep 0),
    htot, hrest, ?_, ?_⟩
  · simp only [Track.travellingTime, htot, hrest]
  · exact (addSeconds_subSeconds d _ hdlt
      (restingFold_lt t _ 0 (by decide))).symm

/-- C1 at a track with stops `[0, 5]`, `[10, 10]`: total 10, resting 5, travelling 5. -/
theorem totalTime_eq_resting_add_travelling_witness :
    ∃ total resting travelling : seconds,
      Track.totalTime ⟨[], [], [0, 10], [5, 10], 20⟩ = some total ∧
      Track.restingTime ⟨[], [], [0, 10], [5, 10], 20⟩ = some resting ∧
      Track.travellingTime ⟨[], [], [0, 10], [5, 10], 20⟩ = some travelling ∧
      total = addSeconds resting travelling :=
  totalTime_eq_resting_add_travelling ⟨[], [], [0, 10], [5, 10], 20⟩ rfl (by simp)
    (by decide)

end GPS

namespace GPS

/-! ## C2: total height gain and net height gain -/

theorem getLastD_eq_getD_pred {α : Type} (l : List α) (d : α) :
    l.getLastD d = l.getD (l.length - 1) d := by
  rw [List.getLastD_eq_getLast?, List.getLast?_eq_getElem?, List.getD_eq_getElem?_getD]

theorem headD_eq_getD_zero {α : Type} (l : List α) (d : α) :
    l.headD d = l.getD 0 d := by
  cases l <;> rfl

/-- A value strictly within a half of the integer `n` rounds to `n`. -/
theorem roundTiesEven_of_lt (y : ℚ) (n : ℤ) (h1 : (n : ℚ) - 1 / 2 < y)
    (h2 : y < n + 1 / 2) : roundTiesEven y = n := by
  unfold roundTiesEven
  by_cases hy : (n : ℚ) ≤ y
  · have hf : ⌊y⌋ = n := Int.floor_eq_iff.mpr ⟨hy, by linarith⟩
    rw [hf, if_pos (by linarith)]
  · have hf : ⌊y⌋ = n - 1 :=
      Int.floor_eq_iff.mpr ⟨by push_cast; linarith, by push_cast; linarith⟩
    rw [hf, if_neg (by push_cast; linarith), if_pos (by push_cast; linarith)]
    ring

/-- A value half-way above the even integer `f` rounds down to `f`. -/
theorem roundTiesEven_tie (y : ℚ) (f : ℤ) (hy : y = f + 1 / 2) (hf : f % 2 = 0) :
    roundTiesEven y = f := by
  unfold roundTiesEven
  have hfl : ⌊y⌋ = f := Int.floor_eq_iff.mpr ⟨by linarith, by linarith⟩
  rw [hfl, if_neg (by linarith), if_neg (by linarith), if_pos hf]

theorem doubleExponent_eq (x : ℚ) (e : ℤ) (he1 : (2 : ℚ) ^ e ≤ |x|)
    (he2 : |x| < (2 : ℚ) ^ (e + 1)) (hmin : -1022 ≤ e) : doubleExponent x = e := by
  have hpos : (0 : ℚ) < |x| := lt_of_lt_of_le (by positivity) he1
  have h1 : e ≤ Int.log 2 |x| :=
    (Int.zpow_le_iff_le_log (R := ℚ) one_lt_two hpos).mp (by exact_mod_cast he1)
  have h2 : Int.log 2 |x| < e + 1 :=
    (Int.lt_zpow_iff_log_lt (R := ℚ) one_lt_two hpos).mp (by exact_mod_cast he2)
  unfold doubleExponent
  omega

/-- Evaluation of `roundDouble` from the exponent `e`, the unit `q = 2^(e-52)` and
the rounded significand `n`. -/
theorem roundDouble_eq (x q : ℚ) (e n : ℤ) (he1 : (2 : ℚ) ^ e ≤ |x|)
    (he2 : |x| < (2 : ℚ) ^ (e + 1)) (hmin : -1022 ≤ e) (hq : (2 : ℚ) ^ (e - 52) = q)
    (hn : roundTiesEven (x / q) = n) : roundDouble x = n * q := by
  unfold roundDouble
  rw [doubleExponent_eq x e he1 he2 hmin, hq, hn]

/-- A multiple `n * 2^(e-52)` of the unit of its own binade is a `double`: an
operation with this exact result is not rounded. -/
theorem roundDouble_exact (x q : ℚ) (e n : ℤ) (he1 : (2 : ℚ) ^ e ≤ |x|)
    (he2 : |x| < (2 : ℚ) ^ (e + 1)) (hmin : -1022 ≤ e) (hq : (2 : ℚ) ^ (e - 52) = q)
    (hx : x = n * q) : roundDouble x = x := by
  have hq0 : q ≠ 0 := by
    rw [← hq]
    positivity
  have hn : roundTiesEven (x / q) = n := by
    refine roundTiesEven_of_lt _ _ ?_ ?_
    · rw [hx, mul_div_assoc, div_self hq0]
      linarith
    · rw [hx, mul_div_assoc, div_self hq0]
      linarith
  rw [roundDouble_eq x q e n he1 he2 hmin hq hn, ← hx]

theorem roundDouble_zero : roundDouble 0 = 0 := by
  simp [roundDouble, roundTiesEven]

/-- `Route::totalHeightGain` on three positions, from the results of its four
`double` operations. -/
theorem totalHeightGain_three (p0 p1 p2 : Position) (ns : List String) (g : metres)
    (d1 d2 t1 t2 : metres)
    (h1 : roundDouble (p1.elevation - p0.elevation) = d1) (hd1 : 0 < d1)
    (ht1 : roundDouble (0 + d1) = t1)
    (h2 : roundDouble (p2.elevation - p1.elevation) = d2) (hd2 : 0 < d2)
    (ht2 : roundDouble (t1 + d2) = t2) :
    Route.totalHeightGain ⟨[p0, p1, p2], ns, g⟩ = some t2 := by
  have hr : List.range' 1 2 = [1, 2] := rfl
  have hs1 : Route.heightGainStep ⟨[p0, p1, p2], ns, g⟩ 0 1 = t1 := by
    show (if roundDouble (p1.elevation - p0.elevation) > 0
      then roundDouble (0 + roundDouble (p1.elevation - p0.elevation)) else 0) = t1
    rw [h1, if_pos hd1, ht1]
  have hs2 : Route.heightGainStep ⟨[p0, p1, p2], ns, g⟩ t1 2 = t2 := by
    show (if roundDouble (p2.elevation - p1.elevation) > 0
      then roundDouble (t1 + roundDouble (p2.elevation - p1.elevation)) else t1) = t2
    rw [h2, if_pos hd2, ht2]
  show some ((List.range' 1 2).foldl (Route.heightGainStep ⟨[p0, p1, p2], ns, g⟩) 0)
    = some t2
  rw [hr, List.foldl_cons, List.foldl_cons, List.foldl_nil, hs1, hs2]

/-- `Route::netHeightGain` on three positions, from the result of its subtraction. -/
theorem netHeightGain_three (p0 p1 p2 : Position) (ns : List String) (g : metres)
    (d : metres) (h : roundDouble (p2.elevation - p0.elevation) = d) :
    Route.netHeightGain ⟨[p0, p1, p2], ns, g⟩ = some (max d 0) := by
  show some (max (roundDouble (p2.elevation - p0.elevation)) 0) = some (max d 0)
  rw [h]

/-- The elevations 0.2 and 0.9 as `double` values. -/
theorem roundDouble_fifth :
    roundDouble (1 / 5) = 3602879701896397 / 18014398509481984 := by
  rw [roundDouble_eq (1 / 5) (1 / 36028797018963968) (-3) 7205759403792794
    (by norm_num [abs_of_pos]) (by norm_num [abs_of_pos]) (by norm_num) (by norm_num)
    (roundTiesEven_of_lt _ _ (by norm_num) (by norm_num))]
  norm_num

theorem roundDouble_nine_tenths :
    roundDouble (9 / 10) = 8106479329266893 / 9007199254740992 := by
  rw [roundDouble_eq (9 / 10) (1 / 9007199254740992) (-1) 8106479329266893
    (by norm_num [abs_of_pos]) (by norm_num [abs_of_pos]) (by norm_num) (by norm_num)
    (roundTiesEven_of_lt _ _ (by norm_num) (by norm_num))]
  norm_num

/-- C2 as stated fails on the code. On the elevations 0, 0.2, 0.9 (as `double`
values) the loop of `totalHeightGain` computes `0.9 - 0.2` and `0.2 + 0.7`, both
of which lie half-way between two doubles and are rounded down, and returns
0.8999999999999999, which is less than `netHeightGain() = 0.9`. -/
theorem totalHeightGain_lt_netHeightGain_rounded :
    roundDouble (1 / 5) = 3602879701896397 / 18014398509481984 ∧
    roundDouble (9 / 10) = 8106479329266893 / 9007199254740992 ∧
    Route.totalHeightGain
        ⟨[⟨0, 0, 0⟩, ⟨0, 1, 3602879701896397 / 18014398509481984⟩,
          ⟨0, 2, 8106479329266893 / 9007199254740992⟩], ["a", "b", "c"], 20⟩
      = some (2026619832316723 / 2251799813685248) ∧
    Route.netHeightGain
        ⟨[⟨0, 0, 0⟩, ⟨0, 1, 3602879701896397 / 18014398509481984⟩,
          ⟨0, 2, 8106479329266893 / 9007199254740992⟩], ["a", "b", "c"], 20⟩
      = some (8106479329266893 / 9007199254740992) ∧
    (2026619832316723 / 2251799813685248 : metres)
      < 8106479329266893 / 9007199254740992 := by
  have hx1 : roundDouble (3602879701896397 / 18014398509481984)
      = 3602879701896397 / 18014398509481984 :=
    roundDouble_exact _ (1 / 36028797018963968) (-3) 7205759403792794
      (by norm_num [abs_of_pos]) (by norm_num [abs_of_pos]) (by norm_num) (by norm_num)
      (by norm_num)
  have hx2 : roundDouble (8106479329266893 / 9007199254740992)
      = 8106479329266893 / 9007199254740992 :=
    roundDouble_exact _ (1 / 9007199254740992) (-1) 8106479329266893
      (by norm_num [abs_of_pos]) (by norm_num [abs_of_pos]) (by norm_num) (by norm_num)
      (by norm_num)
  have hd2 : roundDouble (8106479329266893 / 9007199254740992
      - 3602879701896397 / 18014398509481984)
      = 3152519739159347 / 4503599627370496 := by
    rw [roundDouble_eq _ (1 / 9007199254740992) (-1) 6305039478318694
      (by norm_num [abs_of_pos]) (by norm_num [abs_of_pos]) (by norm_num) (by norm_num)
      (roundTiesEven_tie _ _ (by norm_num) (by norm_num))]
    norm_num
  have ht2 : roundDouble (3602879701896397 / 18014398509481984
      + 3152519739159347 / 4503599627370496)
      = 2026619832316723 / 2251799813685248 := by
    rw [roundDouble_eq _ (1 / 9007199254740992) (-1) 8106479329266892
      (by norm_num [abs_of_pos]) (by norm_num [abs_of_pos]) (by norm_num) (by norm_num)
      (roundTiesEven_tie _ _ (by norm_num) (by norm_num))]
    norm_num
  refine ⟨roundDouble_fifth, roundDouble_nine_tenths, ?_, ?_, by norm_num⟩
  · exact totalHeightGain_three _ _ _ _ _
      (3602879701896397 / 18014398509481984) (3152519739159347 / 4503599627370496)
      (3602879701896397 / 18014398509481984) (2026619832316723 / 2251799813685248)
      (by rw [sub_zero]; exact hx1) (by norm_num) (by rw [zero_add]; exact hx1)
      hd2 (by norm_num) ht2
  · rw [netHeightGain_three _ _ _ _ _ (8106479329266893 / 9007199254740992)
      (by rw [sub_zero]; exact hx2)]
    rw [max_eq_left (by norm_num)]

/-- Loop invariant of `totalHeightGain` when no operation is rounded: after the
iterations `i = 1 .. m` the running total is non-negative and at least
`elevation[m] - elevation[0]`. -/
theorem heightGainFold_ge (r : Route)
    (hsub : ∀ i, 1 ≤ i → i < r.positions.length →
      roundDouble ((r.positions.getD i default).elevation
          - (r.positions.getD (i - 1) default).elevation)
        = (r.positions.getD i default).elevation
          - (r.positions.getD (i - 1) default).elevation)
    (hadd : ∀ i, 1 ≤ i → i < r.positions.length →
      0 < (r.positions.getD i default).elevation
          - (r.positions.getD (i - 1) default).elevation →
      roundDouble ((List.range' 1 (i - 1)).foldl r.heightGainStep 0
          + ((r.positions.getD i default).elevation
            - (r.positions.getD (i - 1) default).elevation))
        = (List.range' 1 (i - 1)).foldl r.heightGainStep 0
          + ((r.positions.getD i default).elevation
            - (r.positions.getD (i - 1) default).elevation))
    (m : ℕ) (hm : m < r.positions.length) :
    0 ≤ (List.range' 1 m).foldl r.heightGainStep 0 ∧
    (r.positions.getD m default).elevation - (r.positions.getD 0 default).elevation
      ≤ (List.range' 1 m).foldl r.heightGainStep 0 := by
  induction m with
  | zero => simp
  | succ k ih =>
    obtain ⟨h0, h1⟩ := ih (by omega)
    have hs := hsub (k + 1) (by omega) hm
    have ha := hadd (k + 1) (by omega) hm
    rw [Nat.add_sub_cancel] at hs ha
    rw [List.range'_1_concat, List.foldl_append]
    simp only [List.foldl_cons, List.foldl_nil, Route.heightGainStep]
    have hk : 1 + k - 1 = k := by omega
    have hk' : 1 + k = k + 1 := by omega
    rw [hk, hk', hs]
    split_ifs with hpos
    · rw [ha hpos]
      constructor <;> linarith
    · constructor
      · exact h0
      · linarith

/-- C2 (amended). For every non-empty position sequence on which no operation of
the two functions is rounded (every consecutive elevation difference, every
running total of the loop and the difference between the last and the first
elevation is a `double`), `totalHeightGain` and `netHeightGain` both return and
the total is at least the net gain `max(elevation(last) - elevation(first), 0)`. -/
theorem netHeightGain_le_totalHeightGain (r : Route) (hne : r.positions ≠ [])
    (hsub : ∀ i, 1 ≤ i → i < r.positions.length →
      roundDouble ((r.positions.getD i default).elevation
          - (r.positions.getD (i - 1) default).elevation)
        = (r.positions.getD i default).elevation
          - (r.positions.getD (i - 1) default).elevation)
    (hadd : ∀ i, 1 ≤ i → i < r.positions.length →
      0 < (r.positions.getD i default).elevation
          - (r.positions.getD (i - 1) default).elevation →
      roundDouble ((List.range' 1 (i - 1)).foldl r.heightGainStep 0
          + ((r.positions.getD i default).elevation
            - (r.positions.getD (i - 1) default).elevation))
        = (List.range' 1 (i - 1)).foldl r.heightGainStep 0
          + ((r.positions.getD i default).elevation
            - (r.positions.getD (i - 1) default).elevation))
    (hnet : roundDouble ((r.positions.getLastD default).elevation
          - (r.positions.headD default).elevation)
        = (r.positions.getLastD default).elevation
          - (r.positions.headD default).elevation) :
    ∃ total net : metres,
      r.totalHeightGain = some total ∧ r.netHeightGain = some net ∧
      net = max ((r.positions.getLastD default).elevation
        - (r.positions.headD default).elevation) 0 ∧
      net ≤ total := by
  have hemp : r.positions.isEmpty = false := by
    cases h : r.positions with
    | nil => exact absurd h hne
    | cons a l => rfl
  have hlen : r.positions.length - 1 < r.positions.length := by
    have : r.positions.length ≠ 0 := fun h => hne (List.length_eq_zero.mp h)
    omega
  refine ⟨_, _, by simp only [Route.totalHeightGain, hemp]; rfl,
    by simp only [Route.netHeightGain, hemp]; rfl, by rw [hnet], ?_⟩
  obtain ⟨h0, h1⟩ := heightGainFold_ge r hsub hadd (r.positions.length - 1) hlen
  rw [hnet, getLastD_eq_getD_pred, headD_eq_getD_zero]
  exact max_le h1 h0

theorem roundDouble_ten : roundDouble 10 = 10 :=
  roundDouble_exact 10 (1 / 562949953421312) 3 5629499534213120
    (by norm_num [abs_of_pos]) (by norm_num [abs_of_pos]) (by norm_num) (by norm_num)
    (by norm_num)

theorem roundDouble_four : roundDouble 4 = 4 :=
  roundDouble_exact 4 (1 / 1125899906842624) 2 4503599627370496
    (by norm_num [abs_of_pos]) (by norm_num [abs_of_pos]) (by norm_num) (by norm_num)
    (by norm_num)

theorem roundDouble_neg_six : roundDouble (-6) = -6 :=
  roundDouble_exact (-6) (1 / 1125899906842624) 2 (-6755399441055744)
    (by norm_num [abs_of_neg]) (by norm_num [abs_of_neg]) (by norm_num) (by norm_num)
    (by norm_num)

/-- C2 (amended) at the elevations 0, 10, 4 (whole metres, nothing is rounded):
total gain 10, net gain 4. -/
theorem netHeightGain_le_totalHeightGain_witness :
    ∃ total net : metres,
      Route.totalHeightGain ⟨[⟨0, 0, 0⟩, ⟨0, 1, 10⟩, ⟨0, 2, 4⟩], [], 20⟩ = some total ∧
      Route.netHeightGain ⟨[⟨0, 0, 0⟩, ⟨0, 1, 10⟩, ⟨0, 2, 4⟩], [], 20⟩ = some net ∧
      net = max ((List.getLastD [(⟨0, 0, 0⟩ : Position), ⟨0, 1, 10⟩, ⟨0, 2, 4⟩]
          default).elevation
        - (List.headD [(⟨0, 0, 0⟩ : Position), ⟨0, 1, 10⟩, ⟨0, 2, 4⟩]
          default).elevation) 0 ∧
      net ≤ total :=
  netHeightGain_le_totalHeightGain ⟨[⟨0, 0, 0⟩, ⟨0, 1, 10⟩, ⟨0, 2, 4⟩], [], 20⟩
    (List.cons_ne_nil _ _)
    (by
      intro i h1 h3
      have h3' : i < 3 := h3
      interval_cases i
      · show roundDouble ((10 : ℚ) - 0) = 10 - 0
        rw [sub_zero]
        exact roundDouble_ten
      · show roundDouble ((4 : ℚ) - 10) = 4 - 10
        have h : (4 : ℚ) - 10 = -6 := by norm_num
        rw [h]
        exact roundDouble_neg_six)
    (by
      intro i h1 h3
      have h3' : i < 3 := h3
      interval_cases i
      · intro _
        show roundDouble ((0 : ℚ) + (10 - 0)) = 0 + (10 - 0)
        rw [sub_zero, zero_add]
        exact roundDouble_ten
      · intro hpos
        have hneg : ¬ (0 : ℚ) < 4 - 10 := by norm_num
        exact absurd hpos hneg)
    (by
      show roundDouble ((4 : ℚ) - 0) = 4 - 0
      rw [sub_zero]
      exact roundDouble_four)

end GPS

namespace GPS

/-! ## The two branches of `pushPosition` and of the track loop -/

theorem areSameLocation_eq_true (dist : Position → Position → metres) (g : metres)
    (p q : Position) : areSameLocation dist g p q = true ↔ dist p q < g := by
  simp [areSameLocation]

theorem areSameLocation_eq_false (dist : Position → Position → metres) (g : metres)
    (p q : Position) : areSameLocation dist g p q = false ↔ g ≤ dist p q := by
  simp [areSameLocation]

/-- On empty vectors `pushPosition` keeps the point. -/
theorem pushPosition_nil (dist : Position → Position → metres) (r : Route)
    (pos : RawPoint) (h : r.positions = []) :
    r.pushPosition dist pos
      = { r with positions := [getPos pos],
                 positionNames := r.positionNames ++ [getName pos] } := by
  simp [Route.pushPosition, h]

/-- The comparison made by `pushPosition` is between the new point and the last
retained one. -/
theorem pushPosition_compare (dist : Position → Position → metres) (r : Route)
    (pos : RawPoint) (prev : Position) (h : r.positions.getLast? = some prev) :
    (1 < (r.positions ++ [getPos pos]).length ∧
      areSameLocation dist r.granularity ((r.positions ++ [getPos pos]).getLastD default)
        ((r.positions ++ [getPos pos]).getD ((r.positions ++ [getPos pos]).length - 2)
          default) = true)
      ↔ areSameLocation dist r.granularity (getPos pos) prev = true := by
  obtain ⟨init, hinit⟩ : ∃ init, r.positions = init ++ [prev] := by
    rcases List.eq_nil_or_concat r.positions with hnil | ⟨init, b, hb⟩
    · rw [hnil] at h
      cases h
    · refine ⟨init, ?_⟩
      rw [List.concat_eq_append] at hb
      rw [hb, List.getLast?_concat] at h
      rw [hb, Option.some.inj h]
  have hlen : (r.positions ++ [getPos pos]).length - 2 = init.length := by
    simp [hinit]
  have hget : (r.positions ++ [getPos pos]).getD init.length default = prev := by
    rw [hinit, List.append_assoc, List.getD_eq_getElem?_getD,
      List.getElem?_append_right (le_refl _)]
    simp
  rw [hlen, hget]
  simp [hinit, List.getLastD_eq_getLast?]

/-- Merge branch: the new point is the same location as the last retained
one, and the route is left as it was. -/
theorem pushPosition_same (dist : Position → Position → metres) (r : Route)
    (pos : RawPoint) (prev : Position) (h : r.positions.getLast? = some prev)
    (hs : areSameLocation dist r.granularity (getPos pos) prev = true) :
    r.pushPosition dist pos = r := by
  have hc := (pushPosition_compare dist r pos prev h).mpr hs
  simp only [Route.pushPosition]
  rw [if_pos hc]
  simp

/-- Keep branch: otherwise position and name are appended. -/
theorem pushPosition_keep (dist : Position → Position → metres) (r : Route)
    (pos : RawPoint) (prev : Position) (h : r.positions.getLast? = some prev)
    (hs : areSameLocation dist r.granularity (getPos pos) prev = false) :
    r.pushPosition dist pos
      = { r with positions := r.positions ++ [getPos pos],
                 positionNames := r.positionNames ++ [getName pos] } := by
  have hc : ¬ _ := fun hc => by
    have := (pushPosition_compare dist r pos prev h).mp hc
    rw [hs] at this
    exact Bool.false_ne_true this
  simp only [Route.pushPosition]
  rw [if_neg hc]

theorem pushPosition_granularity (dist : Position → Position → metres) (r : Route)
    (pos : RawPoint) : (r.pushPosition dist pos).granularity = r.granularity := by
  simp only [Route.pushPosition]
  split_ifs <;> rfl

end GPS

namespace GPS

theorem eq_append_of_getLast? {α : Type} {l : List α} {x : α}
    (h : l.getLast? = some x) : ∃ init, l = init ++ [x] := by
  rcases List.eq_nil_or_concat l with hnil | ⟨init, b, hb⟩
  · rw [hnil] at h
    cases h
  · rw [List.concat_eq_append] at hb
    rw [hb, List.getLast?_concat] at h
    exact ⟨init, by rw [hb, Option.some.inj h]⟩

/-- Merge branch of the track loop: only `departed.back()` is assigned. -/
theorem loopStep_same (dist : Position → Position → metres) (s : TrackLoop)
    (pt : RawPoint)
    (hs : areSameLocation dist s.track.granularity (getPos pt) s.prevPos = true) :
    Track.loopStep dist s pt
      = { s with track := { s.track with
            departed := setBack s.track.departed (subSeconds pt.time s.startTime) } } := by
  have hs' : areSameLocation dist s.track.granularity
      (match pt.ele with
        | some ele => { latitude := pt.lat, longitude := pt.lon, elevation := ele }
        | none => { latitude := pt.lat, longitude := pt.lon, elevation := 0 })
      s.prevPos = true := hs
  simp only [Track.loopStep]
  rw [if_pos hs']

/-- Keep branch of the track loop: one entry is appended to each vector and
`prevPos` becomes the new point. -/
theorem loopStep_keep (dist : Position → Position → metres) (s : TrackLoop)
    (pt : RawPoint)
    (hs : areSameLocation dist s.track.granularity (getPos pt) s.prevPos = false) :
    Track.loopStep dist s pt
      = { s with
          track := { s.track with
            positions := s.track.positions ++ [getPos pt],
            positionNames := s.track.positionNames ++ [getName pt],
            arrived := s.track.arrived ++ [subSeconds pt.time s.startTime],
            departed := s.track.departed ++ [subSeconds pt.time s.startTime] },
          prevPos := getPos pt } := by
  have hs' : ¬ areSameLocation dist s.track.granularity
      (match pt.ele with
        | some ele => { latitude := pt.lat, longitude := pt.lon, elevation := ele }
        | none => { latitude := pt.lat, longitude := pt.lon, elevation := 0 })
      s.prevPos = true := by
    intro h
    have h' : areSameLocation dist s.track.granularity (getPos pt) s.prevPos = true := h
    rw [hs] at h'
    exact Bool.false_ne_true h'
  simp only [Track.loopStep]
  rw [if_neg hs']
  rfl

theorem loopStep_granularity (dist : Position → Position → metres) (s : TrackLoop)
    (pt : RawPoint) :
    (Track.loopStep dist s pt).track.granularity = s.track.granularity := by
  cases hs : areSameLocation dist s.track.granularity (getPos pt) s.prevPos
  · rw [loopStep_keep dist s pt hs]
  · rw [loopStep_same dist s pt hs]

theorem loopStep_startTime (dist : Position → Position → metres) (s : TrackLoop)
    (pt : RawPoint) : (Track.loopStep dist s pt).startTime = s.startTime := by
  cases hs : areSameLocation dist s.track.granularity (getPos pt) s.prevPos
  · rw [loopStep_keep dist s pt hs]
  · rw [loopStep_same dist s pt hs]

theorem foldl_pushPosition_granularity (dist : Position → Position → metres)
    (pts : List RawPoint) (r : Route) :
    (pts.foldl (Route.pushPosition dist) r).granularity = r.granularity := by
  induction pts generalizing r with
  | nil => rfl
  | cons pt pts ih => rw [List.foldl_cons, ih, pushPosition_granularity]

/-! ## C3: no two adjacent retained points are the same location -/

/-- Adjacent entries of a chain are related, in index form. -/
theorem chain_adjacent {α : Type} {R : α → α → Prop} {l : List α}
    (h : List.Chain' R l) (i : ℕ) (p q : α)
    (hp : l[i]? = some p) (hq : l[i + 1]? = some q) : R p q := by
  induction l generalizing i with
  | nil => simp at hp
  | cons a l ih =>
    cases i with
    | zero =>
      cases l with
      | nil => simp at hq
      | cons b l =>
        simp only [List.getElem?_cons_zero, Option.some.injEq, zero_add,
          List.getElem?_cons_succ] at hp hq
        subst hp hq
        exact (List.chain'_cons.mp h).1
    | succ j =>
      simp only [List.getElem?_cons_succ] at hp hq
      exact ih h.tail j hp hq

/-- The route merge keeps the retained positions free of adjacent same-location
pairs. -/
theorem pushPosition_chain (dist : Position → Position → metres) (r : Route)
    (pos : RawPoint)
    (h : List.Chain' (fun p q => areSameLocation dist r.granularity q p = false)
      r.positions) :
    List.Chain' (fun p q => areSameLocation dist r.granularity q p = false)
      (r.pushPosition dist pos).positions := by
  cases hl : r.positions.getLast? with
  | none =>
    rw [pushPosition_nil dist r pos (List.getLast?_eq_none_iff.mp hl)]
    exact List.chain'_singleton _
  | some prev =>
    cases hs : areSameLocation dist r.granularity (getPos pos) prev with
    | true => rw [pushPosition_same dist r pos prev hl hs]; exact h
    | false =>
      rw [pushPosition_keep dist r pos prev hl hs]
      refine List.Chain'.append h (List.chain'_singleton _) ?_
      intro x hx y hy
      rw [hl] at hx
      simp only [Option.mem_def, Option.some.injEq, List.head?_cons] at hx hy
      subst hx hy
      exact hs

theorem foldl_pushPosition_chain (dist : Position → Position → metres)
    (pts : List RawPoint) (r : Route)
    (h : List.Chain' (fun p q => areSameLocation dist r.granularity q p = false)
      r.positions) :
    List.Chain' (fun p q => areSameLocation dist r.granularity q p = false)
      (pts.foldl (Route.pushPosition dist) r).positions := by
  induction pts generalizing r with
  | nil => exact h
  | cons pt pts ih =>
    rw [List.foldl_cons]
    have := ih (r.pushPosition dist pt)
      (by rw [pushPosition_granularity]; exact pushPosition_chain dist r pt h)
    rwa [pushPosition_granularity] at this

/-- Invariant of the track loop: `prevPos` is the last retained position and the
retained positions have no adjacent same-location pair. -/
theorem loopStep_chain (dist : Position → Position → metres) (s : TrackLoop)
    (pt : RawPoint)
    (h : s.track.positions.getLast? = some s.prevPos ∧
      List.Chain' (fun p q => areSameLocation dist s.track.granularity q p = false)
        s.track.positions) :
    (Track.loopStep dist s pt).track.positions.getLast?
        = some (Track.loopStep dist s pt).prevPos ∧
      List.Chain' (fun p q => areSameLocation dist s.track.granularity q p = false)
        (Track.loopStep dist s pt).track.positions := by
  cases hs : areSameLocation dist s.track.granularity (getPos pt) s.prevPos with
  | true => rw [loopStep_same dist s pt hs]; exact h
  | false =>
    rw [loopStep_keep dist s pt hs]
    refine ⟨List.getLast?_concat _, List.Chain'.append h.2 (List.chain'_singleton _) ?_⟩
    intro x hx y hy
    simp only [h.1, Option.mem_def, Option.some.injEq, List.head?_cons] at hx hy
    subst hx hy
    exact hs

theorem foldl_loopStep_chain (dist : Position → Position → metres)
    (pts : List RawPoint) (s : TrackLoop)
    (h : s.track.positions.getLast? = some s.prevPos ∧
      List.Chain' (fun p q => areSameLocation dist s.track.granularity q p = false)
        s.track.positions) :
    (pts.foldl (Track.loopStep dist) s).track.positions.getLast?
        = some (pts.foldl (Track.loopStep dist) s).prevPos ∧
      List.Chain' (fun p q => areSameLocation dist s.track.granularity q p = false)
        (pts.foldl (Track.loopStep dist) s).track.positions := by
  induction pts generalizing s with
  | nil => exact h
  | cons pt pts ih =>
    rw [List.foldl_cons]
    have := ih (Track.loopStep dist s pt)
      (by rw [loopStep_granularity]; exact loopStep_chain dist s pt h)
    rwa [loopStep_granularity] at this

/-- C3. For every stream of raw way-points and every granularity, neither the
positions retained by the route merge nor those retained by the track loop
contain adjacent entries `p[i]`, `p[i+1]` with `areSameLocation(p[i+1], p[i])`. -/
theorem ingest_no_adjacent_same_location (dist : Position → Position → metres)
    (granularity : metres) (rtepts : List RawPoint) (first : RawPoint)
    (rest : List RawPoint) (i : ℕ) (p q : Position) :
    ((Route.ingest dist granularity rtepts).positions[i]? = some p →
      (Route.ingest dist granularity rtepts).positions[i + 1]? = some q →
      areSameLocation dist granularity q p = false) ∧
    ((Track.ingest dist granularity first rest).positions[i]? = some p →
      (Track.ingest dist granularity first rest).positions[i + 1]? = some q →
      areSameLocation dist granularity q p = false) := by
  constructor
  · intro hp hq
    exact chain_adjacent (foldl_pushPosition_chain dist rtepts
      { positions := [], positionNames := [], granularity := granularity }
      List.chain'_nil) i p q hp hq
  · intro hp hq
    exact chain_adjacent (foldl_loopStep_chain dist rest
      (Track.firstPoint granularity first)
      ⟨rfl, List.chain'_singleton _⟩).2 i p q hp hq

end GPS

namespace GPS

/-! ## Worked examples of the two ingestion loops -/

/-- Route with A, a duplicate of A, and C one degree of longitude away. -/
theorem ingest_route_example :
    Route.ingest gridDistance 20
        [namedPoint 0 0 "A", namedPoint 0 0 "B", namedPoint 0 1 "C"]
      = ⟨[⟨0, 0, 0⟩, ⟨0, 1, 0⟩], ["A", "C"], 20⟩ := by
  simp [Route.ingest, Route.pushPosition, areSameLocation, gridDistance, getPos, getName,
    namedPoint]
  norm_num

/-- Track with A at `t = 0`, a duplicate of A at `t = 5`, and C at `t = 65`. -/
theorem ingest_track_example :
    Track.ingest gridDistance 20 (timedPoint 0 0 0) [timedPoint 0 0 5, timedPoint 0 1 65]
      = ⟨[⟨0, 0, 0⟩, ⟨0, 1, 0⟩], ["", ""], [0, 65], [5, 65], 20⟩ := by
  simp [Track.ingest, Track.loopStep, Track.firstPoint, areSameLocation, gridDistance,
    timedPoint, setBack, subSeconds]
  norm_num

/-- C3 on the route A, B, C: the retained pair A, C is not a same-location pair. -/
theorem ingest_no_adjacent_same_location_witness :
    (Route.ingest gridDistance 20
        [namedPoint 0 0 "A", namedPoint 0 0 "B", namedPoint 0 1 "C"]).positions[0]?
      = some ⟨0, 0, 0⟩ ∧
    (Route.ingest gridDistance 20
        [namedPoint 0 0 "A", namedPoint 0 0 "B", namedPoint 0 1 "C"]).positions[0 + 1]?
      = some ⟨0, 1, 0⟩ ∧
    areSameLocation gridDistance 20 ⟨0, 1, 0⟩ ⟨0, 0, 0⟩ = false :=
  ⟨by rw [ingest_route_example]; rfl, by rw [ingest_route_example]; rfl,
    (ingest_no_adjacent_same_location gridDistance 20
      [namedPoint 0 0 "A", namedPoint 0 0 "B", namedPoint 0 1 "C"]
      (timedPoint 0 0 0) [] 0 ⟨0, 0, 0⟩ ⟨0, 1, 0⟩).1
      (by rw [ingest_route_example]; rfl) (by rw [ingest_route_example]; rfl)⟩

/-! ## C4: a run of near-duplicates is compared with the last retained point -/

/-- A chain of three points, each within the granularity of 20 metres of its
immediate predecessor (about 11 metres), while the third is about 22 metres from
the first: both loops retain the third point. -/
theorem chained_run_not_merged :
    areSameLocation gridDistance 20 (getPos (timedPoint 0 (1 / 10000) 1))
        (getPos (timedPoint 0 0 0)) = true ∧
    areSameLocation gridDistance 20 (getPos (timedPoint 0 (2 / 10000) 2))
        (getPos (timedPoint 0 (1 / 10000) 1)) = true ∧
    (Route.ingest gridDistance 20
        [timedPoint 0 0 0, timedPoint 0 (1 / 10000) 1, timedPoint 0 (2 / 10000) 2]).positions
      = [getPos (timedPoint 0 0 0), getPos (timedPoint 0 (2 / 10000) 2)] ∧
    (Route.ingest gridDistance 20
        [timedPoint 0 0 0, timedPoint 0 (1 / 10000) 1, timedPoint 0 (2 / 10000) 2]).positions
      ≠ [getPos (timedPoint 0 0 0)] ∧
    (Track.ingest gridDistance 20 (timedPoint 0 0 0)
        [timedPoint 0 (1 / 10000) 1, timedPoint 0 (2 / 10000) 2]).positions
      = [getPos (timedPoint 0 0 0), getPos (timedPoint 0 (2 / 10000) 2)] ∧
    (Track.ingest gridDistance 20 (timedPoint 0 0 0)
        [timedPoint 0 (1 / 10000) 1, timedPoint 0 (2 / 10000) 2]).positions
      ≠ [getPos (timedPoint 0 0 0)] := by
  have hr : (Route.ingest gridDistance 20
      [timedPoint 0 0 0, timedPoint 0 (1 / 10000) 1, timedPoint 0 (2 / 10000) 2]).positions
      = [getPos (timedPoint 0 0 0), getPos (timedPoint 0 (2 / 10000) 2)] := by
    simp [Route.ingest, Route.pushPosition, areSameLocation, gridDistance, getPos, getName,
      timedPoint]
    norm_num [abs_of_nonneg]
  have ht : (Track.ingest gridDistance 20 (timedPoint 0 0 0)
      [timedPoint 0 (1 / 10000) 1, timedPoint 0 (2 / 10000) 2]).positions
      = [getPos (timedPoint 0 0 0), getPos (timedPoint 0 (2 / 10000) 2)] := by
    simp [Track.ingest, Track.loopStep, Track.firstPoint, areSameLocation, gridDistance,
      timedPoint, setBack, subSeconds, getPos]
    norm_num [abs_of_nonneg]
  refine ⟨?_, ?_, hr, ?_, ht, ?_⟩
  · simp [areSameLocation, gridDistance, getPos, timedPoint]
    norm_num [abs_of_nonneg]
  · simp [areSameLocation, gridDistance, getPos, timedPoint]
    norm_num [abs_of_nonneg]
  · rw [hr]; simp
  · rw [ht]; simp

end GPS

namespace GPS

/-- A run of way-points that are all the same location as the last retained
point leaves the route as it was. -/
theorem foldl_pushPosition_same (dist : Position → Position → metres)
    (run : List RawPoint) (r : Route) (prev : Position)
    (hlast : r.positions.getLast? = some prev)
    (h : ∀ p ∈ run, areSameLocation dist r.granularity (getPos p) prev = true) :
    run.foldl (Route.pushPosition dist) r = r := by
  induction run with
  | nil => rfl
  | cons p run ih =>
    rw [List.foldl_cons, pushPosition_same dist r p prev hlast
      (h p (List.mem_cons_self _ _))]
    exact ih (fun q hq => h q (List.mem_cons_of_mem _ hq))

/-- A run of track points that are all the same location as `prevPos` changes
nothing but `departed`. -/
theorem foldl_loopStep_same (dist : Position → Position → metres)
    (run : List RawPoint) (s : TrackLoop)
    (h : ∀ p ∈ run, areSameLocation dist s.track.granularity (getPos p) s.prevPos = true) :
    (run.foldl (Track.loopStep dist) s).track.positions = s.track.positions ∧
    (run.foldl (Track.loopStep dist) s).track.positionNames = s.track.positionNames ∧
    (run.foldl (Track.loopStep dist) s).track.arrived = s.track.arrived ∧
    (run.foldl (Track.loopStep dist) s).prevPos = s.prevPos := by
  induction run generalizing s with
  | nil => exact ⟨rfl, rfl, rfl, rfl⟩
  | cons p run ih =>
    have hp := h p (List.mem_cons_self _ _)
    rw [List.foldl_cons]
    have hstep := loopStep_same dist s p hp
    have := ih (Track.loopStep dist s p) (by
      intro q hq
      rw [hstep]
      exact h q (List.mem_cons_of_mem _ hq))
    rw [hstep] at this ⊢
    exact this

/-- C4 (amended). For every run of raw way-points `p0, p1, ..., pk` in which each
of `p1 .. pk` is closer than the granularity to `p0`, the last retained point,
both loops merge all of `p1 .. pk` into `p0`: the retained sequence is `[p0]`. -/
theorem run_within_granularity_of_first_merged (dist : Position → Position → metres)
    (granularity : metres) (p0 : RawPoint) (run : List RawPoint)
    (h : ∀ p ∈ run, areSameLocation dist granularity (getPos p) (getPos p0) = true) :
    Route.ingest dist granularity (p0 :: run)
      = { positions := [getPos p0], positionNames := [getName p0],
          granularity := granularity } ∧
    (Track.ingest dist granularity p0 run).positions = [getPos p0] ∧
    (Track.ingest dist granularity p0 run).positionNames = [getName p0] ∧
    (Track.ingest dist granularity p0 run).arrived = [0] := by
  refine ⟨?_, ?_⟩
  · unfold Route.ingest
    rw [List.foldl_cons, pushPosition_nil dist _ p0 rfl]
    exact foldl_pushPosition_same dist run _ (getPos p0) rfl h
  · obtain ⟨h1, h2, h3, _⟩ := foldl_loopStep_same dist run
      (Track.firstPoint granularity p0) h
    exact ⟨h1, h2, h3⟩

/-- C4 (amended) on the run A, A, A' with A' about 11 metres from A. -/
theorem run_within_granularity_of_first_merged_witness :
    (∀ p ∈ [timedPoint 0 0 1, timedPoint 0 (1 / 10000) 2],
      areSameLocation gridDistance 20 (getPos p) (getPos (timedPoint 0 0 0)) = true) ∧
    Route.ingest gridDistance 20
        (timedPoint 0 0 0 :: [timedPoint 0 0 1, timedPoint 0 (1 / 10000) 2])
      = { positions := [getPos (timedPoint 0 0 0)],
          positionNames := [getName (timedPoint 0 0 0)], granularity := 20 } ∧
    (Track.ingest gridDistance 20 (timedPoint 0 0 0)
        [timedPoint 0 0 1, timedPoint 0 (1 / 10000) 2]).positions
      = [getPos (timedPoint 0 0 0)] :=
  have h : ∀ p ∈ [timedPoint 0 0 1, timedPoint 0 (1 / 10000) 2],
      areSameLocation gridDistance 20 (getPos p) (getPos (timedPoint 0 0 0)) = true := by
    intro p hp
    simp only [List.mem_cons, List.mem_singleton, List.not_mem_nil, or_false] at hp
    rcases hp with rfl | rfl
    · simp [areSameLocation, gridDistance, getPos, timedPoint]
    · simp [areSameLocation, gridDistance, getPos, timedPoint]
      norm_num [abs_of_nonneg]
  ⟨h, (run_within_granularity_of_first_merged gridDistance 20 (timedPoint 0 0 0)
      [timedPoint 0 0 1, timedPoint 0 (1 / 10000) 2] h).1,
    (run_within_granularity_of_first_merged gridDistance 20 (timedPoint 0 0 0)
      [timedPoint 0 0 1, timedPoint 0 (1 / 10000) 2] h).2.1⟩

end GPS

namespace GPS

/-! ## C5: the route merge is idempotent -/

theorem pushPosition_length (dist : Position → Position → metres) (r : Route)
    (pos : RawPoint) (h : r.positions.length = r.positionNames.length) :
    (r.pushPosition dist pos).positions.length
      = (r.pushPosition dist pos).positionNames.length := by
  cases hl : r.positions.getLast? with
  | none =>
    rw [pushPosition_nil dist r pos (List.getLast?_eq_none_iff.mp hl)]
    have h0 : r.positions = [] := List.getLast?_eq_none_iff.mp hl
    rw [h0] at h
    simp [← h]
  | some prev =>
    cases hs : areSameLocation dist r.granularity (getPos pos) prev with
    | true => rw [pushPosition_same dist r pos prev hl hs]; exact h
    | false =>
      rw [pushPosition_keep dist r pos prev hl hs]
      simp [h]

theorem foldl_pushPosition_length (dist : Position → Position → metres)
    (pts : List RawPoint) (r : Route) (h : r.positions.length = r.positionNames.length) :
    (pts.foldl (Route.pushPosition dist) r).positions.length
      = (pts.foldl (Route.pushPosition dist) r).positionNames.length := by
  induction pts generalizing r with
  | nil => exact h
  | cons pt pts ih =>
    rw [List.foldl_cons]
    exact ih _ (pushPosition_length dist r pt h)

/-- Way-points that continue the retained positions without an adjacent
same-location pair are all appended. -/
theorem foldl_pushPosition_of_chain (dist : Position → Position → metres)
    (l : List RawPoint) (r : Route)
    (h : List.Chain' (fun p q => areSameLocation dist r.granularity q p = false)
      (r.positions ++ l.map getPos)) :
    l.foldl (Route.pushPosition dist) r
      = { r with positions := r.positions ++ l.map getPos,
                 positionNames := r.positionNames ++ l.map getName } := by
  induction l generalizing r with
  | nil => simp
  | cons p l ih =>
    have hstep : r.pushPosition dist p
        = { r with positions := r.positions ++ [getPos p],
                   positionNames := r.positionNames ++ [getName p] } := by
      cases hl : r.positions.getLast? with
      | none =>
        have h0 : r.positions = [] := List.getLast?_eq_none_iff.mp hl
        rw [pushPosition_nil dist r p h0, h0]
        rfl
      | some prev =>
        refine pushPosition_keep dist r p prev hl ?_
        rw [List.map_cons] at h
        exact (List.chain'_append.mp h).2.2 prev hl (getPos p) rfl
    rw [List.foldl_cons, hstep, ih]
    · simp
    · simpa using h

theorem map_getPos_zipWith (ps : List Position) (ns : List String)
    (h : ps.length = ns.length) :
    (List.zipWith
      (fun (p : Position) (n : String) =>
        ({ lat := p.latitude, lon := p.longitude, ele := some p.elevation, name := some n,
           time := 0 } : RawPoint)) ps ns).map getPos = ps := by
  induction ps generalizing ns with
  | nil => simp
  | cons p ps ih =>
    cases ns with
    | nil => simp at h
    | cons n ns =>
      simp only [List.zipWith_cons_cons, List.map_cons, List.cons.injEq]
      exact ⟨rfl, ih ns (by simpa using h)⟩

theorem map_getName_zipWith (ps : List Position) (ns : List String)
    (h : ps.length = ns.length) :
    (List.zipWith
      (fun (p : Position) (n : String) =>
        ({ lat := p.latitude, lon := p.longitude, ele := some p.elevation, name := some n,
           time := 0 } : RawPoint)) ps ns).map getName = ns := by
  induction ps generalizing ns with
  | nil =>
    cases ns with
    | nil => simp
    | cons n ns => simp at h
  | cons p ps ih =>
    cases ns with
    | nil => simp at h
    | cons n ns =>
      simp only [List.zipWith_cons_cons, List.map_cons, List.cons.injEq]
      exact ⟨rfl, ih ns (by simpa using h)⟩

/-- A way-point list without an adjacent same-location pair is returned
unchanged by the route merge. -/
theorem ingest_of_no_adjacent_same (dist : Position → Position → metres)
    (granularity : metres) (l : List RawPoint)
    (h : List.Chain' (fun p q => areSameLocation dist granularity q p = false)
      (l.map getPos)) :
    Route.ingest dist granularity l
      = { positions := l.map getPos, positionNames := l.map getName,
          granularity := granularity } := by
  unfold Route.ingest
  rw [foldl_pushPosition_of_chain dist l _ (by simpa using h)]
  simp

/-- C5. Merging is idempotent: for every raw way-point list and granularity,
running the route merge on the way-points of its own output gives the same
positions and names (and granularity) again. -/
theorem ingest_idempotent (dist : Position → Position → metres) (granularity : metres)
    (l : List RawPoint) :
    Route.ingest dist granularity (Route.ingest dist granularity l).toRaw
      = Route.ingest dist granularity l := by
  have hlen : (Route.ingest dist granularity l).positions.length
      = (Route.ingest dist granularity l).positionNames.length :=
    foldl_pushPosition_length dist l _ rfl
  have hg : (Route.ingest dist granularity l).granularity = granularity :=
    foldl_pushPosition_granularity dist l _
  have hchain : List.Chain' (fun p q => areSameLocation dist granularity q p = false)
      (Route.ingest dist granularity l).positions :=
    foldl_pushPosition_chain dist l
      { positions := [], positionNames := [], granularity := granularity } List.chain'_nil
  have hpos : (Route.ingest dist granularity l).toRaw.map getPos
      = (Route.ingest dist granularity l).positions :=
    map_getPos_zipWith _ _ hlen
  have hname : (Route.ingest dist granularity l).toRaw.map getName
      = (Route.ingest dist granularity l).positionNames :=
    map_getName_zipWith _ _ hlen
  rw [ingest_of_no_adjacent_same dist granularity _ (by rw [hpos]; exact hchain),
    hpos, hname]
  cases hr : Route.ingest dist granularity l with
  | mk ps ns g =>
    rw [hr] at hg
    simp only at hg
    rw [hg]

end GPS

namespace GPS

/-! ## C6: the merge decision of `pushPosition` -/

/-- C6. On a non-empty retained sequence `pushPosition` leaves positions and names
unchanged if and only if the raw point is strictly closer than the granularity
to the last retained point; otherwise (distance equal to the granularity
included) it appends the raw point and its name. Raw points A, B, C with B
within the granularity of A and C not give the retained sequence A, C. -/
theorem pushPosition_merges_iff_closer (dist : Position → Position → metres)
    (r : Route) (pos : RawPoint) (prev : Position)
    (hlast : r.positions.getLast? = some prev)
    (granularity : metres) (a b c : RawPoint) :
    (((r.pushPosition dist pos).positions = r.positions ∧
        (r.pushPosition dist pos).positionNames = r.positionNames)
      ↔ dist (getPos pos) prev < r.granularity) ∧
    (r.granularity ≤ dist (getPos pos) prev →
      r.pushPosition dist pos
        = { r with positions := r.positions ++ [getPos pos],
                   positionNames := r.positionNames ++ [getName pos] }) ∧
    (dist (getPos b) (getPos a) < granularity →
      granularity ≤ dist (getPos c) (getPos a) →
      Route.ingest dist granularity [a, b, c]
        = { positions := [getPos a, getPos c], positionNames := [getName a, getName c],
            granularity := granularity }) := by
  refine ⟨⟨?_, ?_⟩, ?_, ?_⟩
  · intro h
    by_contra hlt
    have hs := (areSameLocation_eq_false dist r.granularity (getPos pos) prev).mpr
      (not_lt.mp hlt)
    rw [pushPosition_keep dist r pos prev hlast hs] at h
    have := congrArg List.length h.1
    simp at this
  · intro hlt
    rw [pushPosition_same dist r pos prev hlast
      ((areSameLocation_eq_true dist r.granularity (getPos pos) prev).mpr hlt)]
    exact ⟨rfl, rfl⟩
  · intro hge
    exact pushPosition_keep dist r pos prev hlast
      ((areSameLocation_eq_false dist r.granularity (getPos pos) prev).mpr hge)
  · intro hb hc
    unfold Route.ingest
    simp only [List.foldl_cons, List.foldl_nil]
    rw [pushPosition_nil dist _ a rfl,
      pushPosition_same dist
        { positions := [getPos a], positionNames := [] ++ [getName a],
          granularity := granularity } b (getPos a) rfl
        ((areSameLocation_eq_true dist granularity _ _).mpr hb),
      pushPosition_keep dist
        { positions := [getPos a], positionNames := [] ++ [getName a],
          granularity := granularity } c (getPos a) rfl
        ((areSameLocation_eq_false dist granularity _ _).mpr hc)]
    rfl

/-- C6 on the route A, B, C of the worked example: B is dropped after A, C is
appended after A, and the whole document retains A and C. -/
theorem pushPosition_merges_iff_closer_witness :
    (Route.mk [⟨0, 0, 0⟩] ["A"] 20).positions.getLast? = some ⟨0, 0, 0⟩ ∧
    (((Route.mk [⟨0, 0, 0⟩] ["A"] 20).pushPosition gridDistance
          (namedPoint 0 0 "B")).positions = [⟨0, 0, 0⟩] ∧
      ((Route.mk [⟨0, 0, 0⟩] ["A"] 20).pushPosition gridDistance
          (namedPoint 0 0 "B")).positionNames = ["A"]) ∧
    Route.ingest gridDistance 20 [namedPoint 0 0 "A", namedPoint 0 0 "B", namedPoint 0 1 "C"]
      = { positions := [getPos (namedPoint 0 0 "A"), getPos (namedPoint 0 1 "C")],
          positionNames := [getName (namedPoint 0 0 "A"), getName (namedPoint 0 1 "C")],
          granularity := 20 } :=
  have hb : gridDistance (getPos (namedPoint 0 0 "B")) (getPos (namedPoint 0 0 "A"))
      < 20 := by
    simp [gridDistance, getPos, namedPoint]
  have hc : (20 : metres)
      ≤ gridDistance (getPos (namedPoint 0 1 "C")) (getPos (namedPoint 0 0 "A")) := by
    simp [gridDistance, getPos, namedPoint]
    norm_num
  have h := pushPosition_merges_iff_closer gridDistance (Route.mk [⟨0, 0, 0⟩] ["A"] 20)
    (namedPoint 0 0 "B") ⟨0, 0, 0⟩ rfl 20 (namedPoint 0 0 "A") (namedPoint 0 0 "B")
    (namedPoint 0 1 "C")
  ⟨rfl, h.1.mpr hb, h.2.2 hb hc⟩

end GPS

namespace GPS

/-! ## C7: a merged track point moves `departed.back()` -/

theorem setBack_append {α : Type} (v : List α) (y x : α) :
    setBack (v ++ [y]) x = v ++ [x] := by
  unfold setBack
  rw [List.length_append, List.length_singleton, Nat.add_sub_cancel,
    List.set_append_right _ _ (le_refl _)]
  simp

theorem setBack_length {α : Type} (v : List α) (x : α) :
    (setBack v x).length = v.length := by
  simp [setBack]

/-- The four vectors keep one common, non-zero length through the track loop. -/
theorem loopStep_lengths (dist : Position → Position → metres) (s : TrackLoop)
    (pt : RawPoint)
    (h : s.track.positions.length = s.track.departed.length ∧
      s.track.positionNames.length = s.track.departed.length ∧
      s.track.arrived.length = s.track.departed.length ∧ s.track.departed ≠ []) :
    (Track.loopStep dist s pt).track.positions.length
        = (Track.loopStep dist s pt).track.departed.length ∧
      (Track.loopStep dist s pt).track.positionNames.length
        = (Track.loopStep dist s pt).track.departed.length ∧
      (Track.loopStep dist s pt).track.arrived.length
        = (Track.loopStep dist s pt).track.departed.length ∧
      (Track.loopStep dist s pt).track.departed ≠ [] := by
  obtain ⟨h1, h2, h3, h4⟩ := h
  cases hs : areSameLocation dist s.track.granularity (getPos pt) s.prevPos with
  | true =>
    rw [loopStep_same dist s pt hs]
    simp only [setBack_length]
    refine ⟨h1, h2, h3, ?_⟩
    intro hnil
    have := congrArg List.length hnil
    rw [setBack_length] at this
    exact h4 (List.length_eq_zero.mp this)
  | false =>
    rw [loopStep_keep dist s pt hs]
    simp [h1, h2, h3]

theorem foldl_loopStep_lengths (dist : Position → Position → metres)
    (pts : List RawPoint) (s : TrackLoop)
    (h : s.track.positions.length = s.track.departed.length ∧
      s.track.positionNames.length = s.track.departed.length ∧
      s.track.arrived.length = s.track.departed.length ∧ s.track.departed ≠ []) :
    (pts.foldl (Track.loopStep dist) s).track.positions.length
        = (pts.foldl (Track.loopStep dist) s).track.departed.length ∧
      (pts.foldl (Track.loopStep dist) s).track.positionNames.length
        = (pts.foldl (Track.loopStep dist) s).track.departed.length ∧
      (pts.foldl (Track.loopStep dist) s).track.arrived.length
        = (pts.foldl (Track.loopStep dist) s).track.departed.length ∧
      (pts.foldl (Track.loopStep dist) s).track.departed ≠ [] := by
  induction pts generalizing s with
  | nil => exact h
  | cons pt pts ih =>
    rw [List.foldl_cons]
    exact ih _ (loopStep_lengths dist s pt h)

theorem firstPoint_lengths (granularity : metres) (first : RawPoint) :
    (Track.firstPoint granularity first).track.positions.length
        = (Track.firstPoint granularity first).track.departed.length ∧
      (Track.firstPoint granularity first).track.positionNames.length
        = (Track.firstPoint granularity first).track.departed.length ∧
      (Track.firstPoint granularity first).track.arrived.length
        = (Track.firstPoint granularity first).track.departed.length ∧
      (Track.firstPoint granularity first).track.departed ≠ [] :=
  ⟨rfl, rfl, rfl, by simp [Track.firstPoint]⟩

end GPS

namespace GPS

end GPS

namespace GPS

/-! ## C8: ordering of the stored times -/

theorem getElem?_snoc_lt {α : Type} (l : List α) (x : α) (i : ℕ) (h : i < l.length) :
    (l ++ [x])[i]? = l[i]? :=
  List.getElem?_append_left h

theorem getElem?_snoc_length {α : Type} (l : List α) (x : α) :
    (l ++ [x])[l.length]? = some x := by
  rw [List.getElem?_append_right (le_refl _)]
  simp

theorem getElem?_snoc_gt {α : Type} (l : List α) (x : α) (i : ℕ) (h : l.length < i) :
    (l ++ [x])[i]? = none := by
  rw [List.getElem?_eq_none_iff]
  simp
  omega

/-- Replacing the last departure time by something no smaller than the last
arrival time keeps the times ordered. -/
theorem timesOrdered_setBack (as ds : List ℕ) (a d d' : ℕ)
    (hlen : as.length = ds.length) (h : TimesOrdered (as ++ [a]) (ds ++ [d]))
    (had : a ≤ d') : TimesOrdered (as ++ [a]) (ds ++ [d']) := by
  obtain ⟨h1, h2⟩ := h
  constructor
  · intro i x y hx hy
    rcases Nat.lt_trichotomy i as.length with hi | hi | hi
    · rw [getElem?_snoc_lt ds d' i (hlen ▸ hi)] at hy
      rw [← getElem?_snoc_lt ds d i (hlen ▸ hi)] at hy
      exact h1 i x y hx hy
    · subst hi
      rw [getElem?_snoc_length] at hx
      rw [hlen, getElem?_snoc_length] at hy
      cases hx
      cases hy
      exact had
    · rw [getElem?_snoc_gt as a i hi] at hx
      cases hx
  · intro i y x hy hx
    have hi : i < ds.length := by
      by_contra hge
      rw [getElem?_snoc_gt as a (i + 1) (by omega)] at hx
      cases hx
    rw [getElem?_snoc_lt ds d' i hi, ← getElem?_snoc_lt ds d i hi] at hy
    exact h2 i y x hy hx

/-- Appending one common time no smaller than the last departure time keeps the
times ordered. -/
theorem timesOrdered_push (as ds : List ℕ) (a d e : ℕ)
    (hlen : as.length = ds.length) (h : TimesOrdered (as ++ [a]) (ds ++ [d]))
    (hde : d ≤ e) : TimesOrdered (as ++ [a] ++ [e]) (ds ++ [d] ++ [e]) := by
  obtain ⟨h1, h2⟩ := h
  have hla : (as ++ [a]).length = as.length + 1 := by simp
  have hld : (ds ++ [d]).length = ds.length + 1 := by simp
  constructor
  · intro i x y hx hy
    rcases Nat.lt_trichotomy i (as.length + 1) with hi | hi | hi
    · rw [getElem?_snoc_lt _ e i (by omega)] at hx hy
      exact h1 i x y hx hy
    · subst hi
      rw [← hla, getElem?_snoc_length] at hx
      rw [hlen, ← hld, getElem?_snoc_length] at hy
      cases hx
      cases hy
      exact le_refl _
    · rw [getElem?_snoc_gt _ e i (by omega)] at hx
      cases hx
  · intro i y x hy hx
    rcases Nat.lt_trichotomy i as.length with hi | hi | hi
    · rw [getElem?_snoc_lt _ e i (by omega)] at hy
      rw [getElem?_snoc_lt _ e (i + 1) (by omega)] at hx
      exact h2 i y x hy hx
    · subst hi
      rw [getElem?_snoc_lt _ e _ (by omega), hlen, getElem?_snoc_length] at hy
      rw [← hla, getElem?_snoc_length] at hx
      cases hx
      cases hy
      exact hde
    · rw [getElem?_snoc_gt _ e (i + 1) (by omega)] at hx
      cases hx

end GPS

namespace GPS

/-- Invariant of the track loop under non-decreasing timestamps: with `tl` the
timestamp of the last raw point read, the last stop satisfies
`arrived <= departed <= tl - startTime` and the stored times are ordered. -/
theorem loopStep_timesOrdered (dist : Position → Position → metres) (s : TrackLoop)
    (pt : RawPoint) (tl : ℕ) (hst : s.startTime ≤ tl) (htl : tl ≤ pt.time)
    (hpt : pt.time < secondsModulus)
    (hinv : ∃ as ds a d, s.track.arrived = as ++ [a] ∧ s.track.departed = ds ++ [d] ∧
      as.length = ds.length ∧ a ≤ d ∧ d ≤ tl - s.startTime ∧
      TimesOrdered (as ++ [a]) (ds ++ [d])) :
    ∃ as ds a d, (Track.loopStep dist s pt).track.arrived = as ++ [a] ∧
      (Track.loopStep dist s pt).track.departed = ds ++ [d] ∧
      as.length = ds.length ∧ a ≤ d ∧ d ≤ pt.time - (Track.loopStep dist s pt).startTime ∧
      TimesOrdered (as ++ [a]) (ds ++ [d]) := by
  obtain ⟨as, ds, a, d, harr, hdep, hlen, had, hd, hord⟩ := hinv
  have hsub : subSeconds pt.time s.startTime = pt.time - s.startTime :=
    subSeconds_of_le _ _ (le_trans hst htl) hpt
  have hmono : tl - s.startTime ≤ pt.time - s.startTime := Nat.sub_le_sub_right htl _
  cases hs : areSameLocation dist s.track.granularity (getPos pt) s.prevPos with
  | true =>
    rw [loopStep_same dist s pt hs]
    refine ⟨as, ds, a, pt.time - s.startTime, harr, ?_, hlen, ?_, le_refl _, ?_⟩
    · simp only
      rw [hdep, setBack_append, hsub]
    · exact le_trans had (le_trans hd hmono)
    · exact timesOrdered_setBack as ds a d _ hlen hord (le_trans had (le_trans hd hmono))
  | false =>
    rw [loopStep_keep dist s pt hs]
    refine ⟨as ++ [a], ds ++ [d], pt.time - s.startTime, pt.time - s.startTime,
      ?_, ?_, ?_, le_refl _, le_refl _, ?_⟩
    · simp only
      rw [harr, hsub]
    · simp only
      rw [hdep, hsub]
    · simp [hlen]
    · exact timesOrdered_push as ds a d _ hlen hord (le_trans hd hmono)

theorem foldl_loopStep_timesOrdered (dist : Position → Position → metres)
    (pts : List RawPoint) (s : TrackLoop) (last : RawPoint)
    (hst : s.startTime ≤ last.time)
    (hchain : List.Chain (fun p q : RawPoint => p.time ≤ q.time) last pts)
    (hpts : ∀ p ∈ pts, p.time < secondsModulus)
    (hinv : ∃ as ds a d, s.track.arrived = as ++ [a] ∧ s.track.departed = ds ++ [d] ∧
      as.length = ds.length ∧ a ≤ d ∧ d ≤ last.time - s.startTime ∧
      TimesOrdered (as ++ [a]) (ds ++ [d])) :
    TimesOrdered (pts.foldl (Track.loopStep dist) s).track.arrived
      (pts.foldl (Track.loopStep dist) s).track.departed := by
  induction pts generalizing s last with
  | nil =>
    obtain ⟨as, ds, a, d, harr, hdep, _, _, _, hord⟩ := hinv
    simp only [List.foldl_nil]
    rw [harr, hdep]
    exact hord
  | cons pt pts ih =>
    rw [List.foldl_cons]
    obtain ⟨hle, hrest⟩ := List.chain_cons.mp hchain
    have hlt := hpts pt (List.mem_cons_self _ _)
    refine ih (Track.loopStep dist s pt) pt ?_ hrest
      (fun q hq => hpts q (List.mem_cons_of_mem _ hq))
      (loopStep_timesOrdered dist s pt last.time hst hle hlt hinv)
    rw [loopStep_startTime]
    exact le_trans hst hle

/-- Track whose third raw point is a duplicate of the second with a smaller
timestamp: the second stop is stored with arrival time 10 and departure time 5. -/
theorem times_not_ordered_example :
    (Track.ingest gridDistance 20 (timedPoint 0 0 0)
        [timedPoint 0 1 10, timedPoint 0 1 5]).arrived = [0, 10] ∧
    (Track.ingest gridDistance 20 (timedPoint 0 0 0)
        [timedPoint 0 1 10, timedPoint 0 1 5]).departed = [0, 5] ∧
    ¬ (∀ (i : ℕ) (a d : seconds),
        (Track.ingest gridDistance 20 (timedPoint 0 0 0)
          [timedPoint 0 1 10, timedPoint 0 1 5]).arrived[i]? = some a →
        (Track.ingest gridDistance 20 (timedPoint 0 0 0)
          [timedPoint 0 1 10, timedPoint 0 1 5]).departed[i]? = some d → a ≤ d) := by
  have h : Track.ingest gridDistance 20 (timedPoint 0 0 0)
      [timedPoint 0 1 10, timedPoint 0 1 5]
      = ⟨[⟨0, 0, 0⟩, ⟨0, 1, 0⟩], ["", ""], [0, 10], [0, 5], 20⟩ := by
    simp [Track.ingest, Track.loopStep, Track.firstPoint, areSameLocation, gridDistance,
      timedPoint, setBack, subSeconds]
    norm_num
  rw [h]
  refine ⟨rfl, rfl, ?_⟩
  intro hall
  exact absurd (hall 1 10 5 rfl rfl) (by decide)

/-- C8 (amended). For every track produced by track ingestion from raw points
whose timestamps are non-decreasing in document order (and are values of the
unsigned 64-bit type), `arrived[i] <= departed[i]` for every index `i` and
`departed[i] <= arrived[i+1]` for every index with a successor. -/
theorem ingest_times_ordered (dist : Position → Position → metres)
    (granularity : metres) (first : RawPoint) (rest : List RawPoint)
    (hmono : List.Chain' (fun p q : RawPoint => p.time ≤ q.time) (first :: rest))
    (hrange : ∀ p ∈ rest, p.time < secondsModulus) :
    (∀ (i : ℕ) (a d : seconds),
      (Track.ingest dist granularity first rest).arrived[i]? = some a →
      (Track.ingest dist granularity first rest).departed[i]? = some d → a ≤ d) ∧
    (∀ (i : ℕ) (d a : seconds),
      (Track.ingest dist granularity first rest).departed[i]? = some d →
      (Track.ingest dist granularity first rest).arrived[i + 1]? = some a → d ≤ a) := by
  refine foldl_loopStep_timesOrdered dist rest (Track.firstPoint granularity first) first
    (le_refl _) hmono hrange ⟨[], [], 0, 0, rfl, rfl, rfl, le_refl _, Nat.zero_le _, ?_⟩
  constructor
  · intro i a d ha hd
    cases i with
    | zero =>
      simp only [List.nil_append, List.getElem?_cons_zero, Option.some.injEq] at ha hd
      rw [← ha, ← hd]
    | succ j => simp at ha
  · intro i d a _ ha
    simp at ha

/-- C8 (amended) on the track A (`t = 0`), A (`t = 5`), C (`t = 65`): the stored
times `arrived = [0, 65]`, `departed = [5, 65]` are ordered. -/
theorem ingest_times_ordered_witness :
    List.Chain' (fun p q : RawPoint => p.time ≤ q.time)
      (timedPoint 0 0 0 :: [timedPoint 0 0 5, timedPoint 0 1 65]) ∧
    (∀ p ∈ [timedPoint 0 0 5, timedPoint 0 1 65], p.time < secondsModulus) ∧
    (∀ (i : ℕ) (a d : seconds),
      (Track.ingest gridDistance 20 (timedPoint 0 0 0)
        [timedPoint 0 0 5, timedPoint 0 1 65]).arrived[i]? = some a →
      (Track.ingest gridDistance 20 (timedPoint 0 0 0)
        [timedPoint 0 0 5, timedPoint 0 1 65]).departed[i]? = some d → a ≤ d) ∧
    (∀ (i : ℕ) (d a : seconds),
      (Track.ingest gridDistance 20 (timedPoint 0 0 0)
        [timedPoint 0 0 5, timedPoint 0 1 65]).departed[i]? = some d →
      (Track.ingest gridDistance 20 (timedPoint 0 0 0)
        [timedPoint 0 0 5, timedPoint 0 1 65]).arrived[i + 1]? = some a → d ≤ a) :=
  have hmono : List.Chain' (fun p q : RawPoint => p.time ≤ q.time)
      (timedPoint 0 0 0 :: [timedPoint 0 0 5, timedPoint 0 1 65]) := by
    simp [timedPoint]
  have hrange : ∀ p ∈ [timedPoint 0 0 5, timedPoint 0 1 65],
      p.time < secondsModulus := by
    intro p hp
    simp only [List.mem_cons, List.mem_singleton, List.not_mem_nil, or_false] at hp
    rcases hp with rfl | rfl <;> decide
  ⟨hmono, hrange,
    ingest_times_ordered gridDistance 20 (timedPoint 0 0 0)
      [timedPoint 0 0 5, timedPoint 0 1 65] hmono hrange⟩

end GPS

namespace GPS

/-! ## C9: the times of the first stop -/

/-- Track A (`t = 0`), duplicate of A (`t = 5`), C (`t = 65`): the first stop is
stored with departure time 5, not 0. -/
theorem first_departed_nonzero_example :
    (Track.ingest gridDistance 20 (timedPoint 0 0 0)
        [timedPoint 0 0 5, timedPoint 0 1 65]).arrived[0]? = some 0 ∧
    (Track.ingest gridDistance 20 (timedPoint 0 0 0)
        [timedPoint 0 0 5, timedPoint 0 1 65]).departed[0]? = some 5 ∧
    ¬ ((Track.ingest gridDistance 20 (timedPoint 0 0 0)
          [timedPoint 0 0 5, timedPoint 0 1 65]).arrived[0]? = some 0 ∧
      (Track.ingest gridDistance 20 (timedPoint 0 0 0)
          [timedPoint 0 0 5, timedPoint 0 1 65]).departed[0]? = some 0) := by
  rw [ingest_track_example]
  refine ⟨rfl, rfl, ?_⟩
  intro h
  exact absurd h.2 (by decide)

/-- While every raw point is the same location as the first one, the track
keeps its single stop, arrived at 0, and `departed[0]` follows the timestamps. -/
theorem foldl_loopStep_first_stop (dist : Position → Position → metres)
    (run : List RawPoint) (s : TrackLoop) (d : seconds)
    (harr : s.track.arrived = [0]) (hdep : s.track.departed = [d])
    (h : ∀ p ∈ run, areSameLocation dist s.track.granularity (getPos p) s.prevPos = true) :
    (run.foldl (Track.loopStep dist) s).track.arrived = [0] ∧
    (run.foldl (Track.loopStep dist) s).track.departed
      = [match run.getLast? with
          | none => d
          | some p => subSeconds p.time s.startTime] ∧
    (run.foldl (Track.loopStep dist) s).prevPos = s.prevPos ∧
    (run.foldl (Track.loopStep dist) s).track.granularity = s.track.granularity := by
  induction run generalizing s d with
  | nil => exact ⟨harr, hdep, rfl, rfl⟩
  | cons p run ih =>
    have hp := h p (List.mem_cons_self _ _)
    have hstep := loopStep_same dist s p hp
    rw [List.foldl_cons]
    have hdep' : (Track.loopStep dist s p).track.departed
        = [subSeconds p.time s.startTime] := by
      rw [hstep]
      simp only
      rw [hdep]
      exact setBack_append [] d _
    have harr' : (Track.loopStep dist s p).track.arrived = [0] := by
      rw [hstep]; exact harr
    have hprev : (Track.loopStep dist s p).prevPos = s.prevPos := by rw [hstep]
    have hgran : (Track.loopStep dist s p).track.granularity = s.track.granularity := by
      rw [hstep]
    have hstart : (Track.loopStep dist s p).startTime = s.startTime := by rw [hstep]
    obtain ⟨r1, r2, r3, r4⟩ := ih (Track.loopStep dist s p) _ harr' hdep' (by
      intro q hq
      rw [hprev, hgran]
      exact h q (List.mem_cons_of_mem _ hq))
    refine ⟨r1, ?_, r3.trans hprev, r4.trans hgran⟩
    rw [r2, hstart]
    cases run with
    | nil => rfl
    | cons q run =>
      rw [List.getLast?_cons_cons]
      cases hq : (q :: run).getLast? with
      | none => exact absurd (List.getLast?_eq_none_iff.mp hq) (List.cons_ne_nil _ _)
      | some z => rfl

/-- Once a second stop exists, no step of the track loop touches index 0 of
the time vectors. -/
theorem loopStep_first_times (dist : Position → Position → metres) (s : TrackLoop)
    (pt : RawPoint) (x : seconds)
    (h : s.track.arrived[0]? = some 0 ∧ s.track.departed[0]? = some x ∧
      2 ≤ s.track.departed.length) :
    (Track.loopStep dist s pt).track.arrived[0]? = some 0 ∧
      (Track.loopStep dist s pt).track.departed[0]? = some x ∧
      2 ≤ (Track.loopStep dist s pt).track.departed.length := by
  obtain ⟨h1, h2, h3⟩ := h
  cases hs : areSameLocation dist s.track.granularity (getPos pt) s.prevPos with
  | true =>
    rw [loopStep_same dist s pt hs]
    refine ⟨h1, ?_, ?_⟩
    · simp only [setBack]
      rw [List.getElem?_set_ne (by omega)]
      exact h2
    · simp only [setBack_length]
      exact h3
  | false =>
    rw [loopStep_keep dist s pt hs]
    have hlen : 0 < s.track.arrived.length := by
      by_contra hlen
      have : s.track.arrived = [] := List.length_eq_zero.mp (by omega)
      rw [this] at h1
      cases h1
    refine ⟨?_, ?_, ?_⟩
    · simp only
      rw [List.getElem?_append_left hlen]
      exact h1
    · simp only
      rw [List.getElem?_append_left (by omega)]
      exact h2
    · simp only [List.length_append, List.length_singleton]
      omega

theorem foldl_loopStep_first_times (dist : Position → Position → metres)
    (pts : List RawPoint) (s : TrackLoop) (x : seconds)
    (h : s.track.arrived[0]? = some 0 ∧ s.track.departed[0]? = some x ∧
      2 ≤ s.track.departed.length) :
    (pts.foldl (Track.loopStep dist) s).track.arrived[0]? = some 0 ∧
      (pts.foldl (Track.loopStep dist) s).track.departed[0]? = some x := by
  induction pts generalizing s with
  | nil => exact ⟨h.1, h.2.1⟩
  | cons pt pts ih =>
    rw [List.foldl_cons]
    exact ih _ (loopStep_first_times dist s pt x h)

end GPS

namespace GPS

/-- C9 (amended). For every track produced by track ingestion `arrived[0] = 0`.
`departed[0] = 0` when no raw point is merged into the first stop; when the raw
points `run` that directly follow the first point are the same location as it
(and the next raw point, if any, is not), `departed[0]` is the timestamp of the
last point of `run` minus the first timestamp. -/
theorem ingest_first_stop_times (dist : Position → Position → metres)
    (granularity : metres) (first : RawPoint) (run tail : List RawPoint)
    (hrun : ∀ p ∈ run, areSameLocation dist granularity (getPos p) (getPos first) = true)
    (htail : ∀ p ∈ tail.head?,
      areSameLocation dist granularity (getPos p) (getPos first) = false) :
    (Track.ingest dist granularity first (run ++ tail)).arrived[0]? = some 0 ∧
    (Track.ingest dist granularity first (run ++ tail)).departed[0]?
      = some (match run.getLast? with
          | none => 0
          | some p => subSeconds p.time first.time) := by
  obtain ⟨h1, h2, h3, h4⟩ := foldl_loopStep_first_stop dist run
    (Track.firstPoint granularity first) 0 rfl rfl hrun
  unfold Track.ingest
  rw [List.foldl_append]
  cases tail with
  | nil =>
    simp only [List.foldl_nil]
    rw [h1, h2]
    exact ⟨rfl, rfl⟩
  | cons q tail =>
    have hq : areSameLocation dist
        (run.foldl (Track.loopStep dist) (Track.firstPoint granularity first)).track.granularity
        (getPos q)
        (run.foldl (Track.loopStep dist) (Track.firstPoint granularity first)).prevPos
          = false := by
      rw [h3, h4]
      exact htail q rfl
    rw [List.foldl_cons]
    refine foldl_loopStep_first_times dist tail _ _ ?_
    rw [loopStep_keep dist _ q hq]
    simp only
    rw [h1, h2]
    exact ⟨rfl, rfl, by simp⟩

/-- C9 (amended) on the track A (`t = 0`), A (`t = 5`), C (`t = 65`). -/
theorem ingest_first_stop_times_witness :
    (∀ p ∈ [timedPoint 0 0 5],
      areSameLocation gridDistance 20 (getPos p) (getPos (timedPoint 0 0 0)) = true) ∧
    (∀ p ∈ [timedPoint 0 1 65].head?,
      areSameLocation gridDistance 20 (getPos p) (getPos (timedPoint 0 0 0)) = false) ∧
    (Track.ingest gridDistance 20 (timedPoint 0 0 0)
        ([timedPoint 0 0 5] ++ [timedPoint 0 1 65])).arrived[0]? = some 0 ∧
    (Track.ingest gridDistance 20 (timedPoint 0 0 0)
        ([timedPoint 0 0 5] ++ [timedPoint 0 1 65])).departed[0]?
      = some (match [timedPoint 0 0 5].getLast? with
          | none => 0
          | some p => subSeconds p.time (timedPoint 0 0 0).time) :=
  have hrun : ∀ p ∈ [timedPoint 0 0 5],
      areSameLocation gridDistance 20 (getPos p) (getPos (timedPoint 0 0 0)) = true := by
    intro p hp
    rw [List.mem_singleton.mp hp]
    simp [areSameLocation, gridDistance, getPos, timedPoint]
  have htail : ∀ p ∈ [timedPoint 0 1 65].head?,
      areSameLocation gridDistance 20 (getPos p) (getPos (timedPoint 0 0 0)) = false := by
    intro p hp
    simp only [List.head?_cons, Option.mem_def, Option.some.injEq] at hp
    rw [← hp]
    simp [areSameLocation, gridDistance, getPos, timedPoint]
    norm_num
  ⟨hrun, htail,
    ingest_first_stop_times gridDistance 20 (timedPoint 0 0 0) [timedPoint 0 0 5]
      [timedPoint 0 1 65] hrun htail⟩

end GPS

namespace GPS

/-! ## C10: `findNameOf` after `findPosition` -/

/-- A value stored exactly once is found by `std::find` at the index where it
is stored. -/
theorem indexOf_of_count_one (l : List String) (n : String) (i : ℕ)
    (hi : l[i]? = some n) (hcount : l.count n = 1) : l.indexOf n = i := by
  induction l generalizing i with
  | nil => simp at hi
  | cons a t ih =>
    by_cases ha : a = n
    · subst ha
      rw [List.indexOf_cons_self]
      cases i with
      | zero => rfl
      | succ j =>
        rw [List.count_cons_self] at hcount
        have h0 : t.count a = 0 := by omega
        rw [List.getElem?_cons_succ] at hi
        exact absurd (List.mem_iff_getElem?.mpr ⟨j, hi⟩) (List.count_eq_zero.mp h0)
    · rw [List.indexOf_cons_ne _ ha]
      cases i with
      | zero =>
        rw [List.getElem?_cons_zero] at hi
        exact absurd (Option.some.inj hi) ha
      | succ j =>
        rw [List.getElem?_cons_succ] at hi
        rw [List.count_cons_of_ne (fun h => ha h.symm)] at hcount
        rw [ih j hi hcount]

/-- A route that returns to its start, and a route with granularity 0: in the
first `findNameOf(findPosition("c"))` is `"a"`, in the second
`findNameOf(findPosition("a"))` throws; both names are non-empty and stored once. -/
theorem findNameOf_findPosition_fails :
    ("c" ≠ "" ∧
      (Route.ingest gridDistance 20
        [namedPoint 0 0 "a", namedPoint 0 1 "b", namedPoint 0 0 "c"]).positionNames.count "c"
        = 1 ∧
      ((Route.ingest gridDistance 20
          [namedPoint 0 0 "a", namedPoint 0 1 "b", namedPoint 0 0 "c"]).findPosition "c").bind
        ((Route.ingest gridDistance 20
          [namedPoint 0 0 "a", namedPoint 0 1 "b", namedPoint 0 0 "c"]).findNameOf
            gridDistance) = some "a" ∧
      ((Route.ingest gridDistance 20
          [namedPoint 0 0 "a", namedPoint 0 1 "b", namedPoint 0 0 "c"]).findPosition "c").bind
        ((Route.ingest gridDistance 20
          [namedPoint 0 0 "a", namedPoint 0 1 "b", namedPoint 0 0 "c"]).findNameOf
            gridDistance) ≠ some "c") ∧
    ("a" ≠ "" ∧
      (Route.ingest gridDistance 0 [namedPoint 0 0 "a"]).positionNames.count "a" = 1 ∧
      ((Route.ingest gridDistance 0 [namedPoint 0 0 "a"]).findPosition "a").bind
        ((Route.ingest gridDistance 0 [namedPoint 0 0 "a"]).findNameOf gridDistance)
        = none) := by
  have h1 : Route.ingest gridDistance 20
      [namedPoint 0 0 "a", namedPoint 0 1 "b", namedPoint 0 0 "c"]
      = ⟨[⟨0, 0, 0⟩, ⟨0, 1, 0⟩, ⟨0, 0, 0⟩], ["a", "b", "c"], 20⟩ := by
    simp [Route.ingest, Route.pushPosition, areSameLocation, gridDistance, getPos, getName,
      namedPoint]
    norm_num
  have h2 : Route.ingest gridDistance 0 [namedPoint 0 0 "a"]
      = ⟨[⟨0, 0, 0⟩], ["a"], 0⟩ := by
    simp [Route.ingest, Route.pushPosition, getPos, getName, namedPoint]
  have h3 : (Route.mk [⟨0, 0, 0⟩, ⟨0, 1, 0⟩, ⟨0, 0, 0⟩] ["a", "b", "c"] 20).findPosition "c"
      = some ⟨0, 0, 0⟩ := by decide
  have h4 : (Route.mk [⟨0, 0, 0⟩, ⟨0, 1, 0⟩, ⟨0, 0, 0⟩] ["a", "b", "c"] 20).findNameOf
      gridDistance ⟨0, 0, 0⟩ = some "a" := by
    simp [Route.findNameOf, List.findIdx_cons, areSameLocation, gridDistance]
  have h5 : (Route.mk [⟨0, 0, 0⟩] ["a"] 0).findPosition "a" = some ⟨0, 0, 0⟩ := by decide
  have h6 : (Route.mk [⟨0, 0, 0⟩] ["a"] 0).findNameOf gridDistance ⟨0, 0, 0⟩ = none := by
    simp [Route.findNameOf, List.findIdx_cons, areSameLocation, gridDistance]
  rw [h1, h2, h3, h5]
  simp only [Option.some_bind, h4, h6]
  decide

end GPS

namespace GPS

/-- C10 (amended). For every route (with as many names as positions) and every
non-empty name `n` stored for exactly one retained point `p`, if `p` is the same
location as itself (its distance to itself is below the granularity) and no
retained point before it is the same location as `p`, then `findPosition(n)`
returns `p` and `findNameOf(p)` returns `n`. -/
theorem findNameOf_findPosition (dist : Position → Position → metres) (r : Route)
    (n : String) (i : ℕ) (p : Position)
    (hlen : r.positions.length = r.positionNames.length)
    (_hn : n ≠ "") (hcount : r.positionNames.count n = 1)
    (hi : r.positionNames[i]? = some n) (hp : r.positions[i]? = some p)
    (hself : areSameLocation dist r.granularity p p = true)
    (hfirst : ∀ (j : ℕ) (q : Position), j < i → r.positions[j]? = some q →
      areSameLocation dist r.granularity q p = false) :
    r.findPosition n = some p ∧
    (r.findPosition n).bind (r.findNameOf dist) = some n := by
  obtain ⟨hilt, hpi⟩ := List.getElem?_eq_some.mp hp
  have hidx : r.positionNames.indexOf n = i := indexOf_of_count_one _ n i hi hcount
  have hfp : r.findPosition n = some p := by
    simp only [Route.findPosition, hidx]
    rw [if_neg (by omega), List.get?_eq_getElem?]
    exact hp
  have hfind : r.positions.findIdx
      (fun pos => areSameLocation dist r.granularity pos p) = i := by
    rw [List.findIdx_eq hilt]
    refine ⟨by rw [hpi]; exact hself, ?_⟩
    intro j hji
    exact hfirst j _ hji (List.getElem?_eq_getElem (by omega))
  refine ⟨hfp, ?_⟩
  rw [hfp, Option.some_bind]
  simp only [Route.findNameOf, hfind]
  rw [if_neg (by omega), List.get?_eq_getElem?]
  exact hi

/-- C10 (amended) on the route A "a", C "b" with granularity 20: looking up
"b" gives C, and the name of C is "b". -/
theorem findNameOf_findPosition_witness :
    (Route.mk [⟨0, 0, 0⟩, ⟨0, 1, 0⟩] ["a", "b"] 20).findPosition "b" = some ⟨0, 1, 0⟩ ∧
    ((Route.mk [⟨0, 0, 0⟩, ⟨0, 1, 0⟩] ["a", "b"] 20).findPosition "b").bind
      ((Route.mk [⟨0, 0, 0⟩, ⟨0, 1, 0⟩] ["a", "b"] 20).findNameOf gridDistance)
      = some "b" :=
  findNameOf_findPosition gridDistance (Route.mk [⟨0, 0, 0⟩, ⟨0, 1, 0⟩] ["a", "b"] 20)
    "b" 1 ⟨0, 1, 0⟩ rfl (by decide) (by decide) rfl rfl
    (by simp [areSameLocation, gridDistance])
    (by
      intro j q hj hq
      have hj0 : j = 0 := by omega
      subst hj0
      simp only [List.getElem?_cons_zero, Option.some.injEq] at hq
      rw [← hq]
      simp [areSameLocation, gridDistance]
      norm_num)

end GPS

namespace GPS

/-! ## C11: `timesVisited` on an unknown name -/

/-- C11. For every route and every name that is stored for no retained point,
`findPosition(name)` fails with the not-found error, and `timesVisited(name)`
swallows that error and returns 0. -/
theorem timesVisited_unknown_name (dist : Position → Position → metres) (r : Route)
    (name : String) (h : name ∉ r.positionNames) :
    r.findPosition name = none ∧ r.timesVisited dist name = 0 := by
  have hidx : r.positionNames.indexOf name = r.positionNames.length :=
    List.indexOf_eq_length.mpr h
  have hfp : r.findPosition name = none := by
    simp only [Route.findPosition, hidx, if_true]
  refine ⟨hfp, ?_⟩
  simp only [Route.timesVisited, hfp]

/-- C11 on the route A "a", C "b" and the name "z". -/
theorem timesVisited_unknown_name_witness :
    "z" ∉ ["a", "b"] ∧
    (Route.mk [⟨0, 0, 0⟩, ⟨0, 1, 0⟩] ["a", "b"] 20).findPosition "z" = none ∧
    (Route.mk [⟨0, 0, 0⟩, ⟨0, 1, 0⟩] ["a", "b"] 20).timesVisited gridDistance "z" = 0 :=
  ⟨by decide,
    timesVisited_unknown_name gridDistance (Route.mk [⟨0, 0, 0⟩, ⟨0, 1, 0⟩] ["a", "b"] 20)
      "z" (by decide)⟩

/-! ## C12: metrics of a single-point route -/

/-- C12. For every route whose retained sequence has exactly one point `p` (any
granularity), given `distanceBetween(p, p) = 0`: `maxGradient`, `minGradient` and
`steepestGradient` return 0, and `totalLength` and `netLength` are 0. -/
theorem single_point_metrics (dist : Position → Position → metres)
    (gradient : metres → metres → degrees) (halfRotation : degrees)
    (pathLength : metres → metres → metres) (r : Route) (p : Position)
    (hone : r.positions = [p]) (hd : dist p p = 0) :
    r.maxGradient dist gradient halfRotation = some 0 ∧
    r.minGradient dist gradient halfRotation = some 0 ∧
    r.steepestGradient dist gradient halfRotation = some 0 ∧
    r.totalLength dist pathLength = 0 ∧
    r.netLength dist = some 0 := by
  refine ⟨?_, ?_, ?_, ?_, ?_⟩
  · simp [Route.maxGradient, hone]
  · simp [Route.minGradient, hone]
  · simp [Route.steepestGradient, hone]
  · simp [Route.totalLength, Route.setLength, hone]
  · simp only [Route.netLength, hone, List.head?_cons, List.getLast?_singleton]
    split_ifs
    · rfl
    · rw [hd]

/-- C12 on the route consisting of the single point A. -/
theorem single_point_metrics_witness :
    (Route.mk [⟨0, 0, 0⟩] ["A"] 20).maxGradient gridDistance (fun v h => v / h) 180
      = some 0 ∧
    (Route.mk [⟨0, 0, 0⟩] ["A"] 20).minGradient gridDistance (fun v h => v / h) 180
      = some 0 ∧
    (Route.mk [⟨0, 0, 0⟩] ["A"] 20).steepestGradient gridDistance (fun v h => v / h) 180
      = some 0 ∧
    (Route.mk [⟨0, 0, 0⟩] ["A"] 20).totalLength gridDistance (fun h v => max |h| |v|) = 0 ∧
    (Route.mk [⟨0, 0, 0⟩] ["A"] 20).netLength gridDistance = some 0 :=
  single_point_metrics gridDistance (fun v h => v / h) 180 (fun h v => max |h| |v|)
    (Route.mk [⟨0, 0, 0⟩] ["A"] 20) ⟨0, 0, 0⟩ rfl (by simp [gridDistance])

end GPS

namespace GPS

/-! ## C13: total length dominates net length -/

/-- Loop invariant of `setLength`: after the iterations `i = 1 .. m` the running
length is non-negative and at least the distance from position 0 to position
`m`. -/
theorem lengthFold_ge (dist : Position → Position → metres)
    (pathLength : metres → metres → metres) (r : Route)
    (hnonneg : ∀ a b, 0 ≤ dist a b) (hself : ∀ a, dist a a = 0)
    (htri : ∀ a b c, dist a c ≤ dist a b + dist b c)
    (hpath : ∀ h v, 0 ≤ h → h ≤ pathLength h v) (m : ℕ) :
    0 ≤ (List.range' 1 m).foldl (r.lengthStep dist pathLength) 0 ∧
    dist (r.positions.getD 0 default) (r.positions.getD m default)
      ≤ (List.range' 1 m).foldl (r.lengthStep dist pathLength) 0 := by
  induction m with
  | zero =>
    simp only [List.range'_zero, List.foldl_nil, le_refl, true_and]
    rw [hself]
  | succ k ih =>
    obtain ⟨h0, h1⟩ := ih
    rw [List.range'_1_concat, List.foldl_append]
    simp only [List.foldl_cons, List.foldl_nil, Route.lengthStep]
    have hk : 1 + k - 1 = k := by omega
    have hk' : 1 + k = k + 1 := by omega
    rw [hk, hk']
    have hseg := hpath
      (dist (r.positions.getD k default) (r.positions.getD (k + 1) default))
      ((r.positions.getD k default).elevation - (r.positions.getD (k + 1) default).elevation)
      (hnonneg _ _)
    have hseg0 := hnonneg (r.positions.getD k default) (r.positions.getD (k + 1) default)
    have ht := htri (r.positions.getD 0 default) (r.positions.getD k default)
      (r.positions.getD (k + 1) default)
    constructor <;> linarith

/-- C13. For every non-empty retained sequence `netLength` returns and
`totalLength >= netLength`, for every distance function that is non-negative,
zero from a point to itself and satisfies the triangle inequality, the length of
a segment (`sqrt(deltaH^2 + deltaV^2)`) being at least its horizontal part. -/
theorem netLength_le_totalLength (dist : Position → Position → metres)
    (pathLength : metres → metres → metres) (r : Route) (hne : r.positions ≠ [])
    (hnonneg : ∀ a b, 0 ≤ dist a b) (hself : ∀ a, dist a a = 0)
    (htri : ∀ a b c, dist a c ≤ dist a b + dist b c)
    (hpath : ∀ h v, 0 ≤ h → h ≤ pathLength h v) :
    ∃ net : metres, r.netLength dist = some net ∧ net ≤ r.totalLength dist pathLength := by
  obtain ⟨h0, h1⟩ := lengthFold_ge dist pathLength r hnonneg hself htri hpath
    (r.positions.length - 1)
  obtain ⟨lastPosition, hlast⟩ : ∃ q, r.positions.getLast? = some q := by
    cases h : r.positions.getLast? with
    | none => exact absurd (List.getLast?_eq_none_iff.mp h) hne
    | some q => exact ⟨q, rfl⟩
  obtain ⟨firstPosition, hfirst⟩ : ∃ q, r.positions.head? = some q := by
    cases h : r.positions with
    | nil => exact absurd h hne
    | cons a l => exact ⟨a, rfl⟩
  have hf : r.positions.getD 0 default = firstPosition := by
    rw [← headD_eq_getD_zero, List.headD_eq_head?_getD, hfirst]
    rfl
  have hl : r.positions.getD (r.positions.length - 1) default = lastPosition := by
    rw [← getLastD_eq_getD_pred, List.getLastD_eq_getLast?, hlast]
    rfl
  rw [hf, hl] at h1
  simp only [Route.netLength, hfirst, hlast, Route.totalLength, Route.setLength]
  split_ifs
  · exact ⟨0, rfl, h0⟩
  · exact ⟨_, rfl, h1⟩

/-- C13 on the route A, C, A with the grid distance: net length 0 (first and last
are the same location), total length twice the distance from A to C. -/
theorem netLength_le_totalLength_witness :
    ∃ net : metres,
      (Route.mk [⟨0, 0, 0⟩, ⟨0, 1, 0⟩, ⟨0, 0, 0⟩] ["a", "b", "c"] 20).netLength gridDistance
        = some net ∧
      net ≤ (Route.mk [⟨0, 0, 0⟩, ⟨0, 1, 0⟩, ⟨0, 0, 0⟩] ["a", "b", "c"] 20).totalLength
        gridDistance (fun h v => max |h| |v|) :=
  netLength_le_totalLength gridDistance (fun h v => max |h| |v|)
    (Route.mk [⟨0, 0, 0⟩, ⟨0, 1, 0⟩, ⟨0, 0, 0⟩] ["a", "b", "c"] 20) (by simp)
    (by
      intro a b
      unfold gridDistance
      positivity)
    (by
      intro a
      simp [gridDistance])
    (by
      intro a b c
      unfold gridDistance
      have h1 := abs_sub_le a.latitude b.latitude c.latitude
      have h2 := abs_sub_le a.longitude b.longitude c.longitude
      nlinarith [h1, h2])
    (by
      intro h v hh
      exact le_trans (le_abs_self h) (le_max_left _ _))

end GPS

namespace GPS

/-! ## C14: `minLatitude` and its tolerance -/

/-- C14 fails on the code. The route with the way-points (0, 0) and (0.00005, 0),
about 5.6 metres apart and both retained at a granularity of 1 metre, has
`minLatitude() = 0.00005`, which is not the minimum latitude 0: the loop replaces
the running value whenever the next latitude is less than `epsilon` above it. -/
theorem minLatitude_not_minimum :
    Route.ingest gridDistance 1 [namedPoint 0 0 "a", namedPoint (1 / 20000) 0 "b"]
      = ⟨[⟨0, 0, 0⟩, ⟨1 / 20000, 0, 0⟩], ["a", "b"], 1⟩ ∧
    (Route.ingest gridDistance 1
      [namedPoint 0 0 "a", namedPoint (1 / 20000) 0 "b"]).minLatitude = some (1 / 20000) ∧
    ¬ ((1 / 20000 : degrees) ≤ (⟨0, 0, 0⟩ : Position).latitude) := by
  have h : Route.ingest gridDistance 1 [namedPoint 0 0 "a", namedPoint (1 / 20000) 0 "b"]
      = ⟨[⟨0, 0, 0⟩, ⟨1 / 20000, 0, 0⟩], ["a", "b"], 1⟩ := by
    simp [Route.ingest, Route.pushPosition, areSameLocation, gridDistance, getPos, getName,
      namedPoint]
    norm_num [abs_of_nonneg]
  refine ⟨h, ?_, by norm_num⟩
  rw [h]
  simp [Route.minLatitude, Route.minLatitudeStep, latitudeEpsilon, List.range_succ]
  norm_num

/-! ## C15: a route without way-points -/

/-- The way-point loop of the `Route` constructor never ends once the data holds
an `rtept` element: every iteration reads the same first element. -/
theorem constructLoop_nonempty (dist : Position → Position → metres) (fuel : ℕ)
    (elemData : List RawPoint) (r : Route) (h : elemData ≠ []) :
    Route.constructLoop dist fuel elemData r = none := by
  induction fuel generalizing r with
  | zero => rfl
  | succ k ih =>
    cases elemData with
    | nil => exact absurd rfl h
    | cons p rest =>
      simp only [Route.constructLoop, List.isEmpty_cons, Bool.false_eq_true, if_false,
        Route.latAndLon]
      exact ih _

/-- C15 fails on the code for routes. A route document with the `gpx` and `rte`
containers and no way-point is constructed without error and has
`numPositions() = 0`: the check for a missing `rtept` element in `latAndLon` is
only reached from inside the loop that runs while such an element exists. -/
theorem route_construct_without_waypoints (dist : Position → Position → metres)
    (fuel : ℕ) (granularity : metres) :
    Route.construct dist (fuel + 1) granularity { gpx := true, rte := true, rtepts := [] }
      = some (.ok { positions := [], positionNames := [], granularity := granularity }) ∧
    (Route.mk [] [] granularity).numPositions = 0 := by
  constructor
  · simp [Route.construct, Route.constructLoop]
  · rfl

end GPS

namespace GPS

/-! ## C16: `maxSpeed` and a zero elapsed time -/

/-- `Track::maxSpeed` on a track with two stops is the single iteration `i = 1`. -/
theorem maxSpeed_two (dist : Position → Position → metres)
    (pathLength : metres → metres → metres) (p q : Position) (n m : String)
    (a0 a1 d0 d1 : seconds) (g : metres) :
    Track.maxSpeed dist pathLength ⟨[p, q], [n, m], [a0, a1], [d0, d1], g⟩
      = Track.maxSpeedStep dist pathLength ⟨[p, q], [n, m], [a0, a1], [d0, d1], g⟩
          (some 0) 1 := by
  simp only [Track.maxSpeed, List.length_cons, List.length_nil, and_self, if_true]
  rfl

/-- An iteration of the loop of `maxSpeed` whose divisor is 0 has no value. -/
theorem maxSpeedStep_zero_elapsed (dist : Position → Position → metres)
    (pathLength : metres → metres → metres) (t : Track) (ms : Option metres) (i : ℕ)
    (h : t.elapsedBefore i = 0) : t.maxSpeedStep dist pathLength ms i = none := by
  simp only [Track.maxSpeedStep, h, divideByTime, if_true]

/-- The track built from two distinct points. -/
theorem ingest_two_distinct (dist : Position → Position → metres) (granularity : metres)
    (a c : RawPoint)
    (hfar : areSameLocation dist granularity (getPos c) (getPos a) = false) :
    Track.ingest dist granularity a [c]
      = ⟨[getPos a, getPos c], [getName a, getName c], [0, subSeconds c.time a.time],
          [0, subSeconds c.time a.time], granularity⟩ := by
  simp only [Track.ingest, List.foldl_cons, List.foldl_nil]
  rw [loopStep_keep dist _ c hfar]
  rfl

/-- Two consecutive distinct retained points that carry the same timestamp make
`maxSpeed` divide by an elapsed time of 0. -/
theorem maxSpeed_equal_timestamps (dist : Position → Position → metres)
    (pathLength : metres → metres → metres) (granularity : metres) (a c : RawPoint)
    (hfar : areSameLocation dist granularity (getPos c) (getPos a) = false)
    (htime : c.time = a.time) (hrange : a.time < secondsModulus) :
    (Track.ingest dist granularity a [c]).elapsedBefore 1 = 0 ∧
    (Track.ingest dist granularity a [c]).maxSpeed dist pathLength = none := by
  have hsub : subSeconds c.time a.time = 0 := by
    rw [htime, subSeconds_of_le a.time a.time (le_refl _) hrange]
    exact Nat.sub_self _
  have h00 : subSeconds 0 0 = 0 :=
    subSeconds_of_le 0 0 (le_refl _) (small_lt_secondsModulus 0 (by omega))
  rw [ingest_two_distinct dist granularity a c hfar, hsub]
  constructor
  · exact h00
  · rw [maxSpeed_two]
    exact maxSpeedStep_zero_elapsed dist pathLength _ _ 1 h00

/-- C16 fails on the code. The track A at `t = 0`, C (one degree of longitude
away) at `t = 0` has two retained points, the assertion of `maxSpeed` holds, and
the only iteration of its loop divides by `arrived[1] - departed[0] = 0`: there
is no guard. -/
theorem maxSpeed_divides_by_zero :
    (Track.ingest gridDistance 20 (timedPoint 0 0 0) [timedPoint 0 1 0]).positions.length
      = 2 ∧
    (Track.ingest gridDistance 20 (timedPoint 0 0 0) [timedPoint 0 1 0]).arrived.length
      = 2 ∧
    (Track.ingest gridDistance 20 (timedPoint 0 0 0) [timedPoint 0 1 0]).departed.length
      = 2 ∧
    (Track.ingest gridDistance 20 (timedPoint 0 0 0) [timedPoint 0 1 0]).elapsedBefore 1
      = 0 ∧
    (Track.ingest gridDistance 20 (timedPoint 0 0 0) [timedPoint 0 1 0]).maxSpeed
      gridDistance (fun h v => max |h| |v|) = none := by
  have hfar : areSameLocation gridDistance 20 (getPos (timedPoint 0 1 0))
      (getPos (timedPoint 0 0 0)) = false := by
    simp [areSameLocation, gridDistance, getPos, timedPoint]
    norm_num
  have h := maxSpeed_equal_timestamps gridDistance (fun h v => max |h| |v|) 20
    (timedPoint 0 0 0) (timedPoint 0 1 0) hfar rfl (small_lt_secondsModulus 0 (by omega))
  refine ⟨?_, ?_, ?_, h.1, h.2⟩ <;>
    rw [ingest_two_distinct gridDistance 20 _ _ hfar] <;> rfl

/-! ## C17: `averageSpeed` -/

/-- C17. For every track (vectors of one common non-zero length) and both values
of `includeRests`, `averageSpeed` returns: 0 when its denominator (`totalTime()` if
`includeRests`, else `travellingTime()`) is 0, and `totalLength()` divided by that
denominator otherwise. -/
theorem averageSpeed_guarded (t : Track) (routeLength : metres) (includeRests : Bool)
    (hlen : t.arrived.length = t.departed.length) (hne : t.departed ≠ []) :
    ∃ time : seconds,
      (if includeRests then t.totalTime else t.travellingTime) = some time ∧
      (time = 0 → t.averageSpeed routeLength includeRests = some 0) ∧
      (time ≠ 0 →
        t.averageSpeed routeLength includeRests = some (routeLength / (time : ℚ))) := by
  obtain ⟨d, hd⟩ : ∃ d, t.departed.getLast? = some d := by
    cases h : t.departed.getLast? with
    | none => exact absurd (List.getLast?_eq_none_iff.mp h) hne
    | some d => exact ⟨d, rfl⟩
  have htot : t.totalTime = some d := by
    simp [Track.totalTime, hne, hd]
  have hrest : t.restingTime
      = some ((List.range t.arrived.length).foldl t.restingStep 0) := by
    simp [Track.restingTime, hlen]
  have htrav : t.travellingTime
      = some (subSeconds d ((List.range t.arrived.length).foldl t.restingStep 0)) := by
    simp only [Track.travellingTime, htot, hrest]
  obtain ⟨time, htime⟩ : ∃ time,
      (if includeRests then t.totalTime else t.travellingTime) = some time := by
    cases includeRests with
    | true => exact ⟨_, htot⟩
    | false => exact ⟨_, htrav⟩
  refine ⟨time, htime, ?_, ?_⟩
  · intro h0
    simp only [Track.averageSpeed, htime, h0, if_true]
  · intro h0
    simp only [Track.averageSpeed, htime, h0, if_false]

/-- C17 on the track with stops `[0, 5]`, `[65, 65]` and length 120. -/
theorem averageSpeed_guarded_witness :
    (Track.mk [] [] [0, 65] [5, 65] 20).arrived.length
      = (Track.mk [] [] [0, 65] [5, 65] 20).departed.length ∧
    ∃ time : seconds,
      (if true then (Track.mk [] [] [0, 65] [5, 65] 20).totalTime
        else (Track.mk [] [] [0, 65] [5, 65] 20).travellingTime) = some time ∧
      (time = 0 → (Track.mk [] [] [0, 65] [5, 65] 20).averageSpeed 120 true = some 0) ∧
      (time ≠ 0 →
        (Track.mk [] [] [0, 65] [5, 65] 20).averageSpeed 120 true
          = some (120 / (time : ℚ))) :=
  ⟨rfl, averageSpeed_guarded (Track.mk [] [] [0, 65] [5, 65] 20) 120 true rfl (by simp)⟩

end GPS

namespace GPS

/-! ## C18: a track from raw text -/

/-- C18 fails on the code. With `isFileName = false` the constructor never copies
`source` into `fileContent`, so the check for the `gpx` element runs on the empty
string and, for a parser that finds no element in an empty string, throws the
missing-`gpx` error whatever the source text is. -/
theorem track_from_text_fails (elementExists : String → String → Bool)
    (readFile : String → Option String) (source : String)
    (hparser : elementExists "" "gpx" = false) :
    Track.openDocument elementExists readFile source false
      = .error (.domainError "no 'gpx' element.") := by
  simp only [Track.openDocument, Track.readFileContent, Track.chkElementExists, hparser,
    Bool.false_eq_true, if_false, Bool.not_false, if_true]
  rfl

/-- C18's failure on a well-formed track document given as text. -/
theorem track_from_text_fails_witness :
    nonEmptyText "" "gpx" = false ∧
    Track.openDocument nonEmptyText (fun _ => none)
        "<gpx><trk><trkseg><trkpt lat=\"0\" lon=\"0\"><time>0</time></trkpt></trkseg></trk></gpx>"
        false
      = .error (.domainError "no 'gpx' element.") :=
  ⟨rfl, track_from_text_fails nonEmptyText (fun _ => none) _ rfl⟩

/-! ## C19: the route merge and the track loop retain the same positions -/

/-- Joint invariant of the two loops: equal positions, names and granularity,
and `prevPos` the last retained position. -/
theorem foldl_pushPosition_eq_loopStep (dist : Position → Position → metres)
    (pts : List RawPoint) (r : Route) (s : TrackLoop)
    (hpos : r.positions = s.track.positions)
    (hnames : r.positionNames = s.track.positionNames)
    (hg : r.granularity = s.track.granularity)
    (hlast : s.track.positions.getLast? = some s.prevPos) :
    (pts.foldl (Route.pushPosition dist) r).positions
        = (pts.foldl (Track.loopStep dist) s).track.positions ∧
      (pts.foldl (Route.pushPosition dist) r).positionNames
        = (pts.foldl (Track.loopStep dist) s).track.positionNames := by
  induction pts generalizing r s with
  | nil => exact ⟨hpos, hnames⟩
  | cons p pts ih =>
    rw [List.foldl_cons, List.foldl_cons]
    have hlast' : r.positions.getLast? = some s.prevPos := by rw [hpos]; exact hlast
    cases hs : areSameLocation dist s.track.granularity (getPos p) s.prevPos with
    | true =>
      have hr := pushPosition_same dist r p s.prevPos hlast' (by rw [hg]; exact hs)
      have ht := loopStep_same dist s p hs
      refine ih (r.pushPosition dist p) (Track.loopStep dist s p) ?_ ?_ ?_ ?_
      · rw [hr, ht]; exact hpos
      · rw [hr, ht]; exact hnames
      · rw [hr, ht]; exact hg
      · rw [ht]; exact hlast
    | false =>
      have hr := pushPosition_keep dist r p s.prevPos hlast' (by rw [hg]; exact hs)
      have ht := loopStep_keep dist s p hs
      refine ih (r.pushPosition dist p) (Track.loopStep dist s p) ?_ ?_ ?_ ?_
      · rw [hr, ht]
        simp only
        rw [hpos]
      · rw [hr, ht]
        simp only
        rw [hnames]
      · rw [hr, ht]; exact hg
      · rw [ht]
        exact List.getLast?_concat _

/-- C19. For every non-empty list of raw way-points and every granularity, the
positions (and names) retained by folding `pushPosition` (push, compare with the
previous entry, pop on a match) are those retained by the track loop (compare
with `prevPos`, push on a mismatch). -/
theorem route_merge_eq_track_merge (dist : Position → Position → metres)
    (granularity : metres) (first : RawPoint) (rest : List RawPoint) :
    (Route.ingest dist granularity (first :: rest)).positions
      = (Track.ingest dist granularity first rest).positions ∧
    (Route.ingest dist granularity (first :: rest)).positionNames
      = (Track.ingest dist granularity first rest).positionNames := by
  unfold Route.ingest Track.ingest
  rw [List.foldl_cons, pushPosition_nil dist _ first rfl]
  exact foldl_pushPosition_eq_loopStep dist rest _ (Track.firstPoint granularity first)
    rfl rfl rfl rfl

end GPS

namespace GPS

/-! ## C20: resting time never exceeds total time -/

theorem getElem?_eq_some_getD {α : Type} (l : List α) (i : ℕ) (d : α) (h : i < l.length) :
    l[i]? = some (l.getD i d) := by
  rw [List.getD_eq_getElem?_getD, List.getElem?_eq_getElem h]
  rfl

theorem resting_step_le (total a d : ℕ) (hta : total ≤ a) (had : a ≤ d)
    (_hd : d < secondsModulus) : addSeconds total (subSeconds d a) ≤ d := by
  simp only [addSeconds, subSeconds, secondsModulus] at *
  show @LE.le ℕ _ _ _
  omega

/-- Loop invariant of `restingTime` on ordered times: after the iterations
`0 .. m - 1` no addition has wrapped around and the running total is 0 for
`m = 0` and at most `departed[m - 1]` otherwise. -/
theorem restingFold_le (t : Track) (hlen : t.arrived.length = t.departed.length)
    (hord : TimesOrdered t.arrived t.departed)
    (hrange : ∀ d ∈ t.departed, d < secondsModulus) (m : ℕ) (hm : m ≤ t.departed.length) :
    (List.range m).foldl t.restingStep 0
      ≤ (if m = 0 then 0 else t.departed.getD (m - 1) 0) := by
  induction m with
  | zero => simp
  | succ k ih =>
    have hk : k < t.departed.length := hm
    have ih' := ih (le_of_lt hk)
    have hak : t.arrived[k]? = some (t.arrived.getD k 0) :=
      getElem?_eq_some_getD _ _ _ (hlen ▸ hk)
    have hdk : t.departed[k]? = some (t.departed.getD k 0) :=
      getElem?_eq_some_getD _ _ _ hk
    have had : t.arrived.getD k 0 ≤ t.departed.getD k 0 := hord.1 k _ _ hak hdk
    have hdlt : t.departed.getD k 0 < secondsModulus := by
      refine hrange _ ?_
      rw [List.getD_eq_getElem _ _ hk]
      exact List.getElem_mem hk
    have hta : (List.range k).foldl t.restingStep 0 ≤ t.arrived.getD k 0 := by
      by_cases hk0 : k = 0
      · subst hk0
        simp
      · rw [if_neg hk0] at ih'
        have hdk' : t.departed[k - 1]? = some (t.departed.getD (k - 1) 0) :=
          getElem?_eq_some_getD _ _ _ (by omega)
        have hak' : t.arrived[k - 1 + 1]? = some (t.arrived.getD k 0) := by
          rw [Nat.sub_add_cancel (Nat.pos_of_ne_zero hk0)]
          exact hak
        exact le_trans ih' (hord.2 (k - 1) _ _ hdk' hak')
    rw [List.range_succ, List.foldl_append]
    simp only [List.foldl_cons, List.foldl_nil, Track.restingStep, Nat.succ_ne_zero,
      if_false, Nat.add_sub_cancel]
    exact resting_step_le _ _ _ hta had hdlt

/-- C20. For every track whose time vectors have one common non-zero length and
satisfy `arrived[i] <= departed[i] <= arrived[i+1]`, `restingTime() <=
totalTime()`, so `travellingTime()` is their difference without wrap-around. -/
theorem restingTime_le_totalTime (t : Track)
    (hlen : t.arrived.length = t.departed.length) (hne : t.departed ≠ [])
    (hord : TimesOrdered t.arrived t.departed)
    (hrange : ∀ d ∈ t.departed, d < secondsModulus) :
    ∃ resting total : seconds,
      t.restingTime = some resting ∧ t.totalTime = some total ∧ resting ≤ total ∧
      t.travellingTime = some (total - resting) := by
  obtain ⟨d, hd⟩ : ∃ d, t.departed.getLast? = some d := by
    cases h : t.departed.getLast? with
    | none => exact absurd (List.getLast?_eq_none_iff.mp h) hne
    | some d => exact ⟨d, rfl⟩
  have hdlt : d < secondsModulus := hrange d (List.mem_of_getLast?_eq_some hd)
  have htot : t.totalTime = some d := by
    simp [Track.totalTime, hne, hd]
  have hrest : t.restingTime
      = some ((List.range t.arrived.length).foldl t.restingStep 0) := by
    simp [Track.restingTime, hlen]
  have hpos : t.departed.length ≠ 0 := fun h => hne (List.length_eq_zero.mp h)
  have hlast : t.departed.getD (t.departed.length - 1) 0 = d := by
    rw [← getLastD_eq_getD_pred, List.getLastD_eq_getLast?, hd]
    rfl
  have hle := restingFold_le t hlen hord hrange t.departed.length (le_refl _)
  rw [if_neg hpos, hlast, ← hlen] at hle
  refine ⟨_, d, hrest, htot, hle, ?_⟩
  simp only [Track.travellingTime, htot, hrest]
  rw [subSeconds_of_le _ _ hle hdlt]

/-- C20 on the stored times `arrived = [0, 65]`, `departed = [5, 65]`. -/
theorem restingTime_le_totalTime_witness :
    TimesOrdered [0, 65] [5, 65] ∧
    ∃ resting total : seconds,
      (Track.mk [] [] [0, 65] [5, 65] 20).restingTime = some resting ∧
      (Track.mk [] [] [0, 65] [5, 65] 20).totalTime = some total ∧ resting ≤ total ∧
      (Track.mk [] [] [0, 65] [5, 65] 20).travellingTime = some (total - resting) :=
  have hord : TimesOrdered [0, 65] [5, 65] := by
    constructor
    · intro i a d ha hd
      match i with
      | 0 =>
        simp only [List.getElem?_cons_zero, Option.some.injEq] at ha hd
        subst ha hd
        decide
      | 1 =>
        simp only [List.getElem?_cons_succ, List.getElem?_cons_zero,
          Option.some.injEq] at ha hd
        subst ha hd
        decide
      | j + 2 => simp at ha
    · intro i d a hd ha
      match i with
      | 0 =>
        simp only [List.getElem?_cons_zero, zero_add, List.getElem?_cons_succ,
          Option.some.injEq] at ha hd
        subst ha hd
        decide
      | j + 1 => simp at ha
  ⟨hord, restingTime_le_totalTime (Track.mk [] [] [0, 65] [5, 65] 20) rfl (by simp) hord
    (by
      intro d hd
      simp only [List.mem_cons, List.mem_singleton, List.not_mem_nil, or_false] at hd
      rcases hd with rfl | rfl
      · exact small_lt_secondsModulus 5 (by omega)
      · exact small_lt_secondsModulus 65 (by omega))⟩

end GPS

namespace GPS

/-! ## C21: the parallel vectors stay aligned -/

/-- C21. After every `pushPosition` step of the route merge `positions` and
`positionNames` have the same size, and after every iteration of the track
way-point loop `positions`, `positionNames`, `arrived` and `departed` all have
the same size: the equalities that `maxSpeed`, `maxRateOfAscent` and
`restingTime` assert. The way-point lists are arbitrary, so the state after any
number of steps is covered. -/
theorem ingest_vectors_aligned (dist : Position → Position → metres)
    (granularity : metres) (rtepts : List RawPoint) (first : RawPoint)
    (rest : List RawPoint) :
    (Route.ingest dist granularity rtepts).positions.length
      = (Route.ingest dist granularity rtepts).positionNames.length ∧
    (Track.ingest dist granularity first rest).positions.length
      = (Track.ingest dist granularity first rest).positionNames.length ∧
    ((Track.ingest dist granularity first rest).positions.length
        = (Track.ingest dist granularity first rest).departed.length ∧
      (Track.ingest dist granularity first rest).positions.length
        = (Track.ingest dist granularity first rest).arrived.length) ∧
    (Track.ingest dist granularity first rest).arrived.length
      = (Track.ingest dist granularity first rest).departed.length := by
  obtain ⟨h1, h2, h3, _⟩ := foldl_loopStep_lengths dist rest
    (Track.firstPoint granularity first) (firstPoint_lengths granularity first)
  refine ⟨foldl_pushPosition_length dist rtepts _ rfl, ?_, ⟨?_, ?_⟩, ?_⟩
  · exact h1.trans h2.symm
  · exact h1
  · exact h1.trans h3.symm
  · exact h3

end GPS
